import Mathlib

/-!
Verification of the poboy message-catalog reconciliation engine
(`src/babelmsg/catalog.py` and `src/utils.py`), as a shallow embedding.

Python values that can serve as message ids, translated strings and
dictionary keys are either strings or tuples of strings; we embed them as
`PyVal`.  Python `None` strings are embedded as the empty string (the code
distinguishes the two only through truthiness and `isinstance` checks,
which agree on this embedding).  `OrderedDict` is embedded as an
insertion-ordered association list with in-place value update
(`dictInsert`).  Python `set` objects are embedded as lists used only
through membership, insertion and union.
-/

namespace Poboy

/-- A Python value usable as a message id, translated string or dict key:
either a `str` or a tuple/list of `str`. -/
inductive PyVal where
  | str (s : String)
  | tup (l : List String)
deriving DecidableEq, Repr

/-- Python truthiness of such a value: non-empty string / non-empty tuple. -/
def PyVal.truthy : PyVal → Bool
  | .str s => s ≠ ""
  | .tup l => l ≠ []

/-- `isinstance(v, (list, tuple))`. -/
def PyVal.isTup : PyVal → Bool
  | .str _ => false
  | .tup _ => true

/-- Python `len` of a string or tuple value. -/
def PyVal.pyLen : PyVal → Nat
  | .str s => s.length
  | .tup l => l.length

/-- `v[0]` for tuples of strings (all call sites have non-empty tuples; the
`""` default is unreachable there), and the identity on plain strings. -/
def PyVal.base : PyVal → String
  | .str s => s
  | .tup l => l.headD ""

/-- Modelled from the spec: `babelmsg.util.distinct` is not present under
`src/`; the spec describes de-duplication as order-preserving with the
first occurrence winning. -/
def distinctAux {α : Type} [DecidableEq α] : List α → List α → List α
  | _, [] => []
  | seen, x :: xs =>
    if x ∈ seen then distinctAux seen xs else x :: distinctAux (x :: seen) xs

/-- Modelled from the spec: order-preserving de-duplication, first
occurrence wins (`babelmsg.util.distinct`, missing from `src/`). -/
def distinct {α : Type} [DecidableEq α] (l : List α) : List α :=
  distinctAux [] l

/-- Python `set.add`: on the list embedding of a set, append if absent. -/
def setAdd {α : Type} [DecidableEq α] (s : List α) (x : α) : List α :=
  if x ∈ s then s else s ++ [x]

/-- Python `set.discard`. -/
def setDiscard {α : Type} [DecidableEq α] (s : List α) (x : α) : List α :=
  s.filter (· ≠ x)

/-- Python `s |= t` on the list embedding of sets. -/
def setUnion {α : Type} [DecidableEq α] (s t : List α) : List α :=
  t.foldl setAdd s

/-- `d.get(k)` on the association-list embedding of an `OrderedDict`. -/
def alookup {α β : Type} [DecidableEq α] (k : α) : List (α × β) → Option β
  | [] => none
  | (a, b) :: l => if a = k then some b else alookup k l

/-- `OrderedDict` assignment `d[k] = v`: update the value in place when the
key is present (keeping its position), otherwise append the new pair. -/
def dictInsert {α β : Type} [DecidableEq α] : List (α × β) → α → β → List (α × β)
  | [], k, v => [(k, v)]
  | (a, b) :: l, k, v =>
    if a = k then (k, v) :: l else (a, b) :: dictInsert l k v

/-- `dict.pop(k)` / `del d[k]`: remove the entry for `k`. -/
def dictRemove {α β : Type} [DecidableEq α] : List (α × β) → α → List (α × β)
  | [], _ => []
  | (a, b) :: l, k =>
    if a = k then dictRemove l k else (a, b) :: dictRemove l k

/-! ### The `PYTHON_FORMAT` regular expression

`catalog.py` computes the `python-format` flag by searching every id form
with the regex
`%(?:\(\w*\))?([-#0 +]?(?:\*|\d+)?(?:\.(?:\*|\d+))?[hlL]?)[diouxXeEfFgGcrs%]`.
The deterministic parser below accepts exactly the same suffixes: the only
backtracking points of that regex (the optional paren group, and `0` being
both a flag and a width digit) do not affect acceptance, because a `(` that
does not complete a `\(\w*\)` group can never be matched by the remainder
of the pattern, and consuming `0` as a flag or as the first width digit
leads to the same continuation.  (`\w` is modelled for ASCII.) -/

/-- Characters of the `[-#0 +]` flag class. -/
def isFormatFlag (c : Char) : Bool :=
  c = '-' ∨ c = '#' ∨ c = '0' ∨ c = ' ' ∨ c = '+'

/-- ASCII `\w`. -/
def isWordChar (c : Char) : Bool :=
  c.isAlphanum ∨ c = '_'

/-- The `[diouxXeEfFgGcrs%]` conversion-character class. -/
def isConversionChar (c : Char) : Bool :=
  c = 'd' ∨ c = 'i' ∨ c = 'o' ∨ c = 'u' ∨ c = 'x' ∨ c = 'X' ∨ c = 'e' ∨
  c = 'E' ∨ c = 'f' ∨ c = 'F' ∨ c = 'g' ∨ c = 'G' ∨ c = 'c' ∨ c = 'r' ∨
  c = 's' ∨ c = '%'

/-- After the optional precision: `[hlL]?` then a conversion character. -/
def specTail (cs : List Char) : Bool :=
  let cs := match cs with
    | c :: rest => if c = 'h' ∨ c = 'l' ∨ c = 'L' then rest else cs
    | [] => []
  match cs with
  | c :: _ => isConversionChar c
  | [] => false

/-- After the optional `(\w*)` name: flag, width, precision, then tail. -/
def specAfterName (cs : List Char) : Bool :=
  let cs := match cs with
    | c :: rest => if isFormatFlag c then rest else cs
    | [] => []
  let cs := match cs with
    | '*' :: rest => rest
    | _ => cs.dropWhile Char.isDigit
  match cs with
  | '.' :: rest =>
    (match rest with
     | '*' :: rest2 => specTail rest2
     | _ =>
       if (rest.takeWhile Char.isDigit) = [] then false
       else specTail (rest.dropWhile Char.isDigit))
  | _ => specTail cs

/-- Parse the suffix following a `%`. -/
def specAfterPercent (cs : List Char) : Bool :=
  match cs with
  | '(' :: rest =>
    (match rest.dropWhile isWordChar with
     | ')' :: rest2 => specAfterName rest2
     | _ => false)
  | _ => specAfterName cs

/-- `PYTHON_FORMAT.search`: some position starts a format specifier. -/
def hasFormatSpec : List Char → Bool
  | [] => false
  | '%' :: rest => specAfterPercent rest || hasFormatSpec rest
  | _ :: rest => hasFormatSpec rest

/-- `Message.python_format`: any id form matches the format regex. -/
def PyVal.pythonFormat : PyVal → Bool
  | .str s => hasFormatSpec s.data
  | .tup l => l.any (fun s => hasFormatSpec s.data)

/-! ### Message -/

/-- `babelmsg.catalog.Message` (the fields the reconciliation engine
reads; `lineno`, `original_lines` and the GUI bookkeeping `items` carry no
reconciliation behaviour). `flags` is a Python `set`, embedded as a list
used through membership. -/
structure Message where
  id : PyVal
  string : PyVal
  locations : List (String × Int)
  flags : List String
  auto_comments : List String
  user_comments : List String
  previous_id : List String
  context : Option String
  modified : Bool
deriving DecidableEq, Repr

/-- `Message.pluralizable`: the id is a list/tuple. -/
def Message.pluralizable (m : Message) : Bool := m.id.isTup

/-- `Message.fuzzy` (read): the `"fuzzy"` label is in `flags`. -/
def Message.isFuzzy (m : Message) : Bool := "fuzzy" ∈ m.flags

/-- `Message.fuzzy` (write): add/remove the label, mark modified. -/
def Message.setFuzzy (m : Message) (b : Bool) : Message :=
  { m with
    modified := true
    flags := if b then setAdd m.flags "fuzzy" else setDiscard m.flags "fuzzy" }

/-- `Message.__init__`: normalize a falsy string of a pluralizable message
to `("", "")`, de-duplicate locations and comments, normalize flags and
recompute the `python-format` flag from the id. -/
def mkMessage (id : PyVal) (string : PyVal) (locations : List (String × Int))
    (flags : List String) (auto_comments user_comments : List String)
    (previous_id : List String) (context : Option String) (modified : Bool) :
    Message :=
  let string := if ¬ string.truthy ∧ id.isTup then PyVal.tup ["", ""] else string
  let flags := distinct flags
  let flags :=
    if id.truthy ∧ id.pythonFormat then setAdd flags "python-format"
    else setDiscard flags "python-format"
  { id := id
    string := string
    locations := distinct locations
    flags := flags
    auto_comments := distinct auto_comments
    user_comments := distinct user_comments
    previous_id := previous_id
    context := context
    modified := modified }

/-- `Message.clone`: re-runs the constructor on copies of all fields. -/
def Message.clone (m : Message) : Message :=
  mkMessage m.id m.string m.locations m.flags m.auto_comments m.user_comments
    m.previous_id m.context m.modified

/-! ### Catalog -/

/-- `Catalog._key_for(id, context)`: the singular id, paired with the
context whenever the context `is not None`. -/
def keyFor (id : PyVal) (context : Option String) : PyVal :=
  let key := id.base
  match context with
  | none => .str key
  | some c => .tup [key, c]

/-- `babelmsg.catalog.Catalog` (the reconciliation-relevant state).
`numPlurals` embeds the resolved, cached `num_plurals` value (its
locale-table lookup `plurals.get_plural` is outside the engine; the
default is `2`).  `fuzzy` is the catalog-level header fuzzy bit. -/
structure Catalog where
  messages : List (PyVal × Message)
  new : List (PyVal × Message)
  orphans : List (PyVal × Message)
  obsolete : List (PyVal × Message)
  numPlurals : Nat
  fuzzy : Bool
  filename : Option String
deriving DecidableEq, Repr

/-- `Catalog.__setitem__` for the repository's call shape
`self[message.id] = message`.  If the derived key is already present, the
stored message absorbs the new one (union of locations, comments and
flags, with a singular→plural upgrade of id and string); the empty-id
message is routed to the header (of which we track the catalog fuzzy bit;
the parsed mime-header metadata carries no reconciliation behaviour);
otherwise the message is stored, after the assertion that a pluralizable
id comes with a sequence string. -/
def Catalog.setitem (c : Catalog) (m : Message) : Except String Catalog :=
  let key := keyFor m.id m.context
  match alookup key c.messages with
  | some current =>
    let current :=
      if m.pluralizable ∧ ¬ current.pluralizable then
        { current with id := m.id, string := m.string, modified := true }
      else current
    let current :=
      { current with
        locations := distinct (current.locations ++ m.locations)
        auto_comments := distinct (current.auto_comments ++ m.auto_comments)
        user_comments := distinct (current.user_comments ++ m.user_comments)
        flags := setUnion current.flags m.flags }
    .ok { c with messages := dictInsert c.messages key current }
  | none =>
    if m.id = .str "" then
      .ok { c with fuzzy := m.isFuzzy }
    else if m.id.isTup ∧ ¬ m.string.isTup then
      .error "AssertionError"
    else
      .ok { c with messages := dictInsert c.messages key m }

/-- `Catalog.add`: construct a `Message` and hand it to `__setitem__`. -/
def Catalog.add (c : Catalog) (id : PyVal) (string : PyVal)
    (locations : List (String × Int)) (flags : List String)
    (auto_comments user_comments : List String) (previous_id : List String)
    (context : Option String) : Except String Catalog :=
  c.setitem
    (mkMessage id string locations flags auto_comments user_comments
      previous_id context false)

/-- The synthesized header message yielded first by `Catalog.__iter__`
(its body, the rendered mime headers, is not modelled: every
reconciliation consumer skips messages with a falsy id, which the header's
empty id always is). -/
def Catalog.headerMessage (c : Catalog) : Message :=
  { id := .str ""
    string := .str ""
    locations := []
    flags := if c.fuzzy then ["fuzzy"] else []
    auto_comments := []
    user_comments := []
    previous_id := []
    context := none
    modified := false }

/-- `Catalog.__iter__`: the synthesized header message followed by the
stored messages in insertion order. -/
def Catalog.iterMessages (c : Catalog) : List Message :=
  c.headerMessage :: c.messages.map Prod.snd

/-- An empty catalog with the default two plural forms. -/
def emptyCatalog : Catalog :=
  { messages := []
    new := []
    orphans := []
    obsolete := []
    numPlurals := 2
    fuzzy := true
    filename := none }

/-! ### The fuzzy matcher: `difflib.SequenceMatcher` / `get_close_matches`

`Catalog.update` calls `difflib.get_close_matches(word, pool, 1, 0.85)`.
`get_close_matches` keeps the candidates whose similarity ratio reaches
the cutoff (its `real_quick_ratio`/`quick_ratio` pre-checks are upper
bounds on `ratio`, so the conjunction of the three tests is equivalent to
`ratio >= cutoff`) and returns the largest `(ratio, candidate)` pair.
The ratio is `2*M/T` where `M` totals the sizes of the recursively-found
longest matching blocks and `T` is the combined length, embedded here over
exact rationals.  `SequenceMatcher`'s `autojunk` heuristic only acts on
second sequences of 200 or more elements and its junk-extension loops
cannot fire when there is no junk (a longer adjacent match would
contradict the maximality of the block the main scan found), so the main
scan below is the complete algorithm for the engine's inputs. -/

/-- The ascending positions `j` in `[blo, bhi)` with `b[j] = c`
(difflib's `b2j[c]` restricted to the window). -/
def jPositions (b : List Char) (blo bhi : Nat) (c : Char) : List Nat :=
  (List.range b.length).filter (fun j => blo ≤ j ∧ j < bhi ∧ b.getD j ' ' = c)

/-- One row of `SequenceMatcher.find_longest_match`: scan the positions of
`a[i]` in `b`, extending the common-suffix lengths recorded in `j2len`
from the previous row and tracking the first longest block found. -/
def flmRow (i : Nat) (js : List Nat) (j2len : Nat → Nat)
    (best : Nat × Nat × Nat) : (Nat → Nat) × (Nat × Nat × Nat) :=
  js.foldl
    (fun st j =>
      let k := (if j = 0 then 0 else j2len (j - 1)) + 1
      let newj2len := fun x => if x = j then k else st.1 x
      let best := if k > st.2.2.2 then (i + 1 - k, j + 1 - k, k) else st.2
      (newj2len, best))
    (fun _ => 0, best)

/-- `SequenceMatcher.find_longest_match(alo, ahi, blo, bhi)` (no junk):
returns `(i, j, size)` of the first longest block of `a[alo:ahi]` matching
inside `b[blo:bhi]`. -/
def findLongestMatch (a b : List Char) (alo ahi blo bhi : Nat) :
    Nat × Nat × Nat :=
  let step := fun (st : (Nat → Nat) × (Nat × Nat × Nat)) (i : Nat) =>
    flmRow i (jPositions b blo bhi (a.getD i ' ')) st.1 st.2
  (((List.range ahi).filter (fun i => alo ≤ i)).foldl step
    (fun _ => 0, (alo, blo, 0))).2

/-- The total size of the matching blocks of `get_matching_blocks`:
the longest block plus, recursively, the blocks strictly to its left and
strictly to its right.  The fuel only bounds the recursion depth, which is
at most the window length since each sub-window is strictly shorter. -/
def matchedTotal (a b : List Char) : Nat → Nat → Nat → Nat → Nat → Nat
  | 0, _, _, _, _ => 0
  | fuel + 1, alo, ahi, blo, bhi =>
    let r := findLongestMatch a b alo ahi blo bhi
    let i := r.1
    let j := r.2.1
    let k := r.2.2
    if k = 0 then 0
    else
      k + (if alo < i ∧ blo < j then matchedTotal a b fuel alo i blo j else 0) +
        (if i + k < ahi ∧ j + k < bhi then
          matchedTotal a b fuel (i + k) ahi (j + k) bhi
        else 0)

/-- The similarity score of `SequenceMatcher(None, a, b)` as the exact
fraction `ratio = 2*m/t`, kept unnormalized as the pair `(m, t)`; the
empty-over-empty case (`ratio() = 1.0`) is represented by `(1, 2)`, so
`t` is always positive. -/
def simScore (a b : List Char) : Nat × Nat :=
  let t := a.length + b.length
  if t = 0 then (1, 2)
  else (matchedTotal a b (t + 1) 0 a.length 0 b.length, t)

/-- `SequenceMatcher(None, a, b).ratio() = 2*M/T` as an exact rational
(Python computes it in floating point; no engine input approaches the
scale at which rounding could flip one of the comparisons below). -/
def ratioQ (a b : List Char) : ℚ :=
  2 * ((simScore a b).1 : ℚ) / ((simScore a b).2 : ℚ)

/-- The cutoff `0.85` passed by `Catalog.update`. -/
def fuzzyCutoff : ℚ := 17 / 20

/-- `cutoff <= ratio`, by cross-multiplication: `17/20 ≤ 2*m/t`. -/
def cutoffLe (s : Nat × Nat) : Bool := 17 * s.2 ≤ 40 * s.1

/-- `ratio s < ratio r`, by cross-multiplication: `2*sm/st < 2*rm/rt`. -/
def scoreLtB (s r : Nat × Nat) : Bool := s.1 * r.2 < r.1 * s.2

/-- `ratio s = ratio r`, by cross-multiplication. -/
def scoreEqB (s r : Nat × Nat) : Bool := s.1 * r.2 = r.1 * s.2

/-- Python `<` on strings: lexicographic comparison of code points. -/
def pyStrLt : List Char → List Char → Bool
  | [], [] => false
  | [], _ :: _ => true
  | _ :: _, [] => false
  | c :: cs, d :: ds => c.toNat < d.toNat ∨ (c = d ∧ pyStrLt cs ds)

/-- `(r1, x1) > (r2, x2)` on `(ratio, candidate)` pairs, as Python
compares the tuples ranked by `heapq.nlargest`. -/
def scoredGt (p q : (Nat × Nat) × String) : Bool :=
  scoreLtB q.1 p.1 ∨ (scoreEqB p.1 q.1 ∧ pyStrLt q.2.data p.2.data)

/-- The scoring pass of `get_close_matches`: keep each candidate whose
ratio against `word` reaches the cutoff, paired with its score. -/
def gcmFilter (word : String) (possibilities : List String) :
    List ((Nat × Nat) × String) :=
  possibilities.filterMap
    (fun x =>
      if cutoffLe (simScore x.data word.data) then
        some (simScore x.data word.data, x)
      else none)

/-- `difflib.get_close_matches(word, possibilities, 1, 0.85)`:
keep the candidates whose ratio against `word` reaches the cutoff, and
return the maximal `(ratio, candidate)` pair — `heapq.nlargest(1, ...)`
is `max`, which keeps an earlier element only on full tuple equality,
never attained by distinct candidate strings. -/
def getCloseMatches1 (word : String) (possibilities : List String) :
    Option String :=
  match gcmFilter word possibilities with
  | [] => none
  | p :: ps =>
    some (ps.foldl (fun best q => if scoredGt q best then q else best) p).2

/-! ### `Catalog.difference` -/

/-- `Catalog.difference(template)`: walk the template; a non-empty-id
message whose key is in this catalog pops `remaining[message.id]` — by the
raw id, not the derived key, so a missing id raises `KeyError` — and
otherwise a clone is recorded in `new`; the never-consumed remainder
becomes `orphans`.  The main mapping is untouched. -/
def Catalog.difference (c : Catalog) (template : Catalog) :
    Except String Catalog :=
  let rec loop (msgs : List Message) (remaining : List (PyVal × Message))
      (newAcc : List (PyVal × Message)) :
      Except String (List (PyVal × Message) × List (PyVal × Message)) :=
    match msgs with
    | [] => .ok (remaining, newAcc)
    | m :: ms =>
      if m.id.truthy then
        let key := keyFor m.id m.context
        if (alookup key c.messages).isSome then
          if (alookup m.id remaining).isSome then
            loop ms (dictRemove remaining m.id) newAcc
          else .error "KeyError"
        else loop ms remaining (dictInsert newAcc m.id m.clone)
      else loop ms remaining newAcc
  match loop template.iterMessages c.messages c.new with
  | .error e => .error e
  | .ok (remaining, newAcc) =>
    .ok { c with
      new := newAcc
      orphans := remaining.foldl (fun o p => dictInsert o p.1 p.2) c.orphans }

/-! ### `Catalog.update` -/

/-- The mutable state of an update pass: the catalog being rebuilt, the
not-yet-consumed snapshot entries, and the keys claimed by fuzzy merges. -/
structure UpdateSt where
  cat : Catalog
  remaining : List (PyVal × Message)
  fuzzyMatches : List PyVal
deriving DecidableEq, Repr

/-- The plural-arity reconciliation of `_merge` (`catalog.py` lines
941-952): pad a scalar string under a pluralizable id, tuple-ify a
wrong-length plural tuple (the slice bound is `len(oldmsg.string)`, the
inherited tuple's own length), or keep only the first form under a
singular id — forcing fuzzy in each of those branches. -/
def reconcileArity (np : Nat) (oldmsg message : Message) (fuzzy : Bool) :
    Except String (Message × Bool) :=
  match message.id with
  | .tup idForms =>
    match message.string with
    | .str s =>
      .ok ({ message with
        string := .tup (s :: List.replicate (idForms.length - 1) "")
        modified := true }, true)
    | .tup strForms =>
      if strForms.length ≠ np then
        .ok ({ message with
          string := .tup (strForms.take oldmsg.string.pyLen)
          modified := true }, true)
      else .ok (message, fuzzy)
  | .str _ =>
    match message.string with
    | .tup [] => .error "IndexError"
    | .tup (s0 :: _) =>
      .ok ({ message with string := .str s0, modified := true }, true)
    | .str _ => .ok (message, fuzzy)

/-- The tail of `_merge`: union the old flags, set the fuzzy bit when any
branch forced it, and store through `__setitem__`. -/
def mergeFinalize (st : UpdateSt) (oldmsg message : Message) (fuzzy : Bool) :
    Except String UpdateSt :=
  let message := { message with flags := setUnion message.flags oldmsg.flags }
  let message := if fuzzy then message.setFuzzy true else message
  match st.cat.setitem message with
  | .error e => .error e
  | .ok cat => .ok { st with cat := cat }

/-- The `_merge(message, oldkey, newkey)` closure of `Catalog.update`:
clone the template message; on the fuzzy path (`oldkey != newkey`) claim
the old key and record the old id as `previous_id`, on the exact path pop
the old entry from `remaining`; inherit the old string (and user comments
when requested); reconcile plural arity, union the old flags, set the
fuzzy bit if forced, and store the result through `__setitem__`. -/
def mergeStep (np : Nat) (snapshot : List (PyVal × Message))
    (keepUserComments : Bool) (st : UpdateSt) (message : Message)
    (oldkey newkey : PyVal) (fuzzyArg : Bool) : Except String UpdateSt :=
  let message := message.clone
  let branch : Except String (UpdateSt × Message × Message × Bool) :=
    if oldkey = newkey then
      match alookup oldkey st.remaining with
      | none => .error "AttributeError"
      | some oldmsg =>
        .ok ({ st with remaining := dictRemove st.remaining oldkey },
          message, oldmsg, fuzzyArg)
    else
      match alookup oldkey snapshot with
      | none => .error "AttributeError"
      | some oldmsg =>
        .ok ({ st with fuzzyMatches := setAdd st.fuzzyMatches oldkey },
          { message with
            previous_id :=
              match oldmsg.id with
              | .str s => [s]
              | .tup l => l },
          oldmsg, true)
  match branch with
  | .error e => .error e
  | .ok (st, message, oldmsg, fuzzy) =>
    let message := { message with string := oldmsg.string, modified := true }
    let message :=
      if keepUserComments then
        { message with user_comments := distinct oldmsg.user_comments }
      else message
    match reconcileArity np oldmsg message fuzzy with
    | .error e => .error e
    | .ok (message, fuzzy) => mergeFinalize st oldmsg message fuzzy

/-- ASCII whitespace stripped by Python `str.strip` (the engine's keys
are source-code literals; non-ASCII whitespace is not modelled). -/
def isPySpace (c : Char) : Bool :=
  c = ' ' ∨ c = '\t' ∨ c = '\n' ∨ c = '\r' ∨ c = '\x0b' ∨ c = '\x0c'

/-- Python `str.lower` (ASCII model) followed by `str.strip`. -/
def pyNormalize (s : String) : String :=
  String.mk
    ((((s.data.map Char.toLower).dropWhile isPySpace).reverse.dropWhile
      isPySpace).reverse)

/-- The candidate pool of `Catalog.update`: a dict, in snapshot order,
from each truthy previously-stored key with a truthy translated string —
taken through `_key_for`, i.e. stripped of its context — to that context.
The pool strings are the raw keys: they are not lower-cased. -/
def buildFuzzyCandidates (messages : List (PyVal × Message)) :
    List (String × Option String) :=
  (messages.filterMap
    (fun p =>
      if p.1.truthy ∧ p.2.string.truthy then some ((keyFor p.1 none).base, p.2.context)
      else none)).foldl
    (fun acc kv => dictInsert acc kv.1 kv.2) []

/-- The main template walk of `Catalog.update`: exact key matches merge in
place; otherwise, with fuzzy matching enabled, the lower-cased, stripped
singular of the key is matched against the candidate pool at cutoff 0.85
and a hit merges under the reconstructed old key; otherwise the template
message is stored as-is. -/
def updateLoop (np : Nat) (snapshot : List (PyVal × Message))
    (noFuzzyMatching keepUserComments : Bool)
    (cands : List (String × Option String)) :
    List Message → UpdateSt → Except String UpdateSt
  | [], st => .ok st
  | m :: ms, st =>
    if m.id.truthy then
      let key := keyFor m.id m.context
      let step : Except String UpdateSt :=
        if (alookup key snapshot).isSome then
          mergeStep np snapshot keepUserComments st m key key false
        else if ¬ noFuzzyMatching then
          let matchkey := match key with
            | .tup l => l.headD ""
            | .str s => s
          match getCloseMatches1 (pyNormalize matchkey) (cands.map Prod.fst) with
          | some mk =>
            let newkey : PyVal :=
              match alookup mk cands with
              | some (some ctxt) => .tup [mk, ctxt]
              | _ => .str mk
            mergeStep np snapshot keepUserComments st m newkey key true
          | none =>
            (st.cat.setitem m).map (fun cat => { st with cat := cat })
        else
          (st.cat.setitem m).map (fun cat => { st with cat := cat })
      match step with
      | .error e => .error e
      | .ok st => updateLoop np snapshot noFuzzyMatching keepUserComments cands ms st
    else updateLoop np snapshot noFuzzyMatching keepUserComments cands ms st

/-- `Catalog.update(template, ...)` down to its final state: snapshot and
clear the main mapping, `new` and `orphans`; build the candidate pool;
walk the template; then move every snapshot entry neither consumed by an
exact merge nor claimed by a fuzzy match into `obsolete`, marked modified.
(The header-comment rewrite and the creation-date copy touch only header
metadata outside the embedded state.) -/
def Catalog.updateFull (c : Catalog) (template : Catalog)
    (noFuzzyMatching updateHeaderComment keepUserComments : Bool) :
    Except String UpdateSt :=
  let snapshot := c.messages
  let c0 : Catalog := { c with messages := [], new := [], orphans := [] }
  let cands :=
    if ¬ noFuzzyMatching then buildFuzzyCandidates snapshot else []
  match updateLoop c.numPlurals snapshot noFuzzyMatching keepUserComments cands
      template.iterMessages
      { cat := c0, remaining := snapshot, fuzzyMatches := [] } with
  | .error e => .error e
  | .ok st =>
    let obsolete := st.remaining.foldl
      (fun ob p =>
        if noFuzzyMatching ∨ p.1 ∉ st.fuzzyMatches then
          dictInsert ob p.1 { p.2 with modified := true }
        else ob)
      st.cat.obsolete
    .ok { st with cat := { st.cat with obsolete := obsolete } }

/-- `Catalog.update`, returning the updated catalog. -/
def Catalog.update (c : Catalog) (template : Catalog)
    (noFuzzyMatching updateHeaderComment keepUserComments : Bool) :
    Except String Catalog :=
  (c.updateFull template noFuzzyMatching updateHeaderComment
    keepUserComments).map (·.cat)

/-! ### `utils.save` -/

/-- `utils.save(catalog, filename)` up to its I/O: resolve the target path
(the explicit argument, else the catalog's bound `filename`) and raise
`FileNotFoundError` when neither is bound; with a destination, the po/mo
codecs take over (out of scope) and the resolved path is returned. -/
def save (catalogFilename : Option String) (filename : Option String) :
    Except String String :=
  let filename := match filename with
    | none => catalogFilename
    | some f => some f
  match filename with
  | none => .error "FileNotFoundError"
  | some f => .ok f

/-! ### Shape compatibility and concrete scenarios -/

/-- A stored translated string is shape-compatible with a template id when
a scalar id carries a scalar string and a plural id carries a tuple of
exactly the catalog's plural count of forms — the condition under which
`_merge`'s arity reconciliation leaves the inherited string untouched. -/
def shapeCompat (id strv : PyVal) (np : Nat) : Prop :=
  match id, strv with
  | .str _, .str _ => True
  | .tup _, .tup fs => fs.length = np
  | .str _, .tup _ => False
  | .tup _, .str _ => False

/-- A message with the given id and translated string and no other
metadata, as `Catalog.add` builds it. -/
def msgOf (id : PyVal) (s : PyVal) : Message :=
  mkMessage id s [] [] [] [] [] none false

/-- A catalog with the given stored messages and default metadata. -/
def catOf (ms : List (PyVal × Message)) : Catalog :=
  { emptyCatalog with messages := ms }

/-- Scenario: a catalog translating the scalar id `"1 file"`. -/
def fileCat : Catalog :=
  catOf [(.str "1 file", msgOf (.str "1 file") (.str "un fichier"))]

/-- Scenario: a template carrying the pluralizable id
`("1 file", "%d files")`. -/
def fileTmpl : Catalog :=
  catOf [(.str "1 file", msgOf (.tup ["1 file", "%d files"]) (.str ""))]

/-- Scenario: a catalog translating `"Color"` (capital C). -/
def colorCat : Catalog :=
  catOf [(.str "Color", msgOf (.str "Color") (.str "Couleur"))]

/-- Scenario: a catalog translating the lower-case `"color"`. -/
def lowerColorCat : Catalog :=
  catOf [(.str "color", msgOf (.str "color") (.str "Couleur"))]

/-- Scenario: a template carrying the untranslated id `"Colour"`. -/
def colourTmpl : Catalog :=
  catOf [(.str "Colour", msgOf (.str "Colour") (.str ""))]

/-- Scenario: a catalog whose entry under key `"a"` holds three translated
plural forms while the catalog expects two. -/
def threeFormsCat : Catalog :=
  catOf [(.str "a", msgOf (.str "a") (.tup ["x", "y", "z"]))]

/-- Scenario: a template carrying the pluralizable id `("a", "b")`. -/
def pluralTmpl : Catalog :=
  catOf [(.str "a", msgOf (.tup ["a", "b"]) (.str ""))]

/-- Scenario: a catalog translating the scalar id `"s"`. -/
def scalarSCat : Catalog :=
  catOf [(.str "s", msgOf (.str "s") (.str "t"))]

/-- Scenario: a template carrying the pluralizable id `("s", "p")`, whose
derived key `"s"` is present in `scalarSCat`. -/
def pluralSTmpl : Catalog :=
  catOf [(.str "s", msgOf (.tup ["s", "p"]) (.tup ["", ""]))]

/-- Scenario: a catalog translating the scalar id `"blue"`. -/
def blueCat : Catalog :=
  catOf [(.str "blue", msgOf (.str "blue") (.str "blau"))]

/-- Scenario: a template carrying the untranslated id `"blue"`. -/
def blueTmpl : Catalog :=
  catOf [(.str "blue", msgOf (.str "blue") (.str ""))]

/-- The final update state of `blueCat.updateFull blueTmpl false false
true`: the merged entry keeps `"blau"`, nothing remains, nothing was
fuzzy-claimed. -/
def blueSt : UpdateSt :=
  ⟨⟨[(.str "blue",
      { id := .str "blue", string := .str "blau", locations := [],
        flags := [], auto_comments := [], user_comments := [],
        previous_id := [], context := none, modified := true })],
    [], [], [], 2, true, none⟩, [], []⟩

/-- `Catalog._key_for` as the spec words it: the context joins the key
only when it is non-empty (the code tests `context is not None`, so an
empty-string context also forms a pair). -/
def keyForSpec (id : PyVal) (context : Option String) : PyVal :=
  let key := id.base
  match context with
  | none => .str key
  | some c => if c = "" then .str key else .tup [key, c]

/-! ## Basic lemmas about the embedded container operations -/

theorem mem_distinctAux {α : Type} [DecidableEq α] (x : α) (l : List α) :
    ∀ seen : List α, x ∈ distinctAux seen l ↔ x ∈ l ∧ x ∉ seen := by
  induction l with
  | nil => intro seen; simp [distinctAux]
  | cons a l ih =>
    intro seen
    simp only [distinctAux]
    by_cases ha : a ∈ seen
    · rw [if_pos ha, ih seen, List.mem_cons]
      by_cases hx : x = a
      · subst hx; simp [ha]
      · simp [hx]
    · rw [if_neg ha]
      simp only [List.mem_cons, ih (a :: seen), List.mem_cons]
      by_cases hx : x = a
      · subst hx; simp [ha]
      · simp [hx]

theorem mem_distinct {α : Type} [DecidableEq α] (x : α) (l : List α) :
    x ∈ distinct l ↔ x ∈ l := by
  rw [distinct, mem_distinctAux]
  simp

theorem mem_setAdd {α : Type} [DecidableEq α] (x y : α) (s : List α) :
    x ∈ setAdd s y ↔ x ∈ s ∨ x = y := by
  unfold setAdd
  by_cases h : y ∈ s
  · rw [if_pos h]
    constructor
    · exact Or.inl
    · rintro (hx | rfl) <;> assumption
  · rw [if_neg h]
    simp

theorem mem_setDiscard {α : Type} [DecidableEq α] (x y : α) (s : List α) :
    x ∈ setDiscard s y ↔ x ∈ s ∧ x ≠ y := by
  unfold setDiscard
  simp [List.mem_filter]

theorem mem_setUnion {α : Type} [DecidableEq α] (x : α) (s t : List α) :
    x ∈ setUnion s t ↔ x ∈ s ∨ x ∈ t := by
  unfold setUnion
  induction t generalizing s with
  | nil => simp
  | cons a t ih =>
    simp only [List.foldl_cons, ih, mem_setAdd, List.mem_cons]
    tauto

theorem alookup_nil {α β : Type} [DecidableEq α] (k : α) :
    alookup (β := β) k [] = none := rfl

theorem alookup_cons {α β : Type} [DecidableEq α] (k a : α) (b : β)
    (l : List (α × β)) :
    alookup k ((a, b) :: l) = if a = k then some b else alookup k l := rfl

theorem alookup_dictInsert_self {α β : Type} [DecidableEq α]
    (l : List (α × β)) (k : α) (v : β) :
    alookup k (dictInsert l k v) = some v := by
  induction l with
  | nil => simp [dictInsert, alookup]
  | cons p l ih =>
    obtain ⟨a, b⟩ := p
    by_cases h : a = k
    · simp [dictInsert, h, alookup]
    · simp [dictInsert, h, alookup, ih]

theorem alookup_dictInsert_ne {α β : Type} [DecidableEq α]
    (l : List (α × β)) (k k' : α) (v : β) (h : k' ≠ k) :
    alookup k' (dictInsert l k v) = alookup k' l := by
  induction l with
  | nil =>
    rw [dictInsert, alookup_cons, if_neg (fun he => h he.symm), alookup_nil]
  | cons p l ih =>
    obtain ⟨a, b⟩ := p
    rw [dictInsert]
    by_cases ha : a = k
    · rw [if_pos ha, alookup_cons, alookup_cons, if_neg (fun he => h he.symm),
        if_neg (fun he => h (he.symm.trans ha))]
    · rw [if_neg ha, alookup_cons, alookup_cons, ih]

theorem alookup_dictRemove_self {α β : Type} [DecidableEq α]
    (l : List (α × β)) (k : α) :
    alookup k (dictRemove l k) = none := by
  induction l with
  | nil => rfl
  | cons p l ih =>
    obtain ⟨a, b⟩ := p
    rw [dictRemove]
    by_cases h : a = k
    · rw [if_pos h]; exact ih
    · rw [if_neg h, alookup_cons, if_neg h, ih]

theorem alookup_dictRemove_ne {α β : Type} [DecidableEq α]
    (l : List (α × β)) (k k' : α) (h : k' ≠ k) :
    alookup k' (dictRemove l k) = alookup k' l := by
  induction l with
  | nil => rfl
  | cons p l ih =>
    obtain ⟨a, b⟩ := p
    rw [dictRemove]
    by_cases ha : a = k
    · rw [if_pos ha, ih, alookup_cons, if_neg (fun he => h (he.symm.trans ha))]
    · rw [if_neg ha, alookup_cons, alookup_cons, ih]

theorem alookup_isSome_of_mem {α β : Type} [DecidableEq α]
    (l : List (α × β)) (p : α × β) (h : p ∈ l) :
    (alookup p.1 l).isSome := by
  induction l with
  | nil => simp at h
  | cons q l ih =>
    obtain ⟨a, b⟩ := q
    rw [alookup_cons]
    by_cases ha : a = p.1
    · simp [ha]
    · rw [if_neg ha]
      rcases List.mem_cons.mp h with rfl | h'
      · simp at ha
      · exact ih h'

/-! ## Lemmas about message construction -/

theorem mkMessage_id (id s : PyVal) (locs : List (String × Int))
    (fl ac uc pi : List String) (ctx : Option String) (md : Bool) :
    (mkMessage id s locs fl ac uc pi ctx md).id = id := rfl

theorem mkMessage_context (id s : PyVal) (locs : List (String × Int))
    (fl ac uc pi : List String) (ctx : Option String) (md : Bool) :
    (mkMessage id s locs fl ac uc pi ctx md).context = ctx := rfl

theorem mkMessage_previous_id (id s : PyVal) (locs : List (String × Int))
    (fl ac uc pi : List String) (ctx : Option String) (md : Bool) :
    (mkMessage id s locs fl ac uc pi ctx md).previous_id = pi := rfl

theorem mkMessage_string (id s : PyVal) (locs : List (String × Int))
    (fl ac uc pi : List String) (ctx : Option String) (md : Bool) :
    (mkMessage id s locs fl ac uc pi ctx md).string =
      if ¬ s.truthy ∧ id.isTup then PyVal.tup ["", ""] else s := rfl

theorem mem_mkMessage_flags (x : String) (hx : x ≠ "python-format")
    (id s : PyVal) (locs : List (String × Int))
    (fl ac uc pi : List String) (ctx : Option String) (md : Bool) :
    x ∈ (mkMessage id s locs fl ac uc pi ctx md).flags ↔ x ∈ fl := by
  show x ∈ (if id.truthy ∧ id.pythonFormat then setAdd (distinct fl) "python-format"
    else setDiscard (distinct fl) "python-format") ↔ x ∈ fl
  by_cases h : id.truthy ∧ id.pythonFormat
  · rw [if_pos h, mem_setAdd, mem_distinct]
    simp [hx]
  · rw [if_neg h, mem_setDiscard, mem_distinct]
    simp [hx]

theorem clone_id (m : Message) : m.clone.id = m.id := rfl

theorem clone_context (m : Message) : m.clone.context = m.context := rfl

/-! ## C6 — key derivation and key stability -/

/-- C6 (counterexample): the spec says the key becomes a pair only when
the context is *not empty*, but `_key_for` pairs the key whenever the
context `is not None`: with the empty-string context `""`, the code
produces the pair `("a", "")` where the spec's wording demands the bare
key `"a"`. -/
theorem c6_counterexample :
    keyFor (.str "a") (some "") ≠ keyForSpec (.str "a") (some "") := by
  decide

/-- C6 (amended): plural text never affects message identity —
`key((s, p), c) = key((s, p2), c)` for any plural forms `p, p2` and any
context — and the key is the id itself for a scalar id, else the singular
form, paired with the context whenever the context is not None (including
an empty context string). -/
theorem c6_key_stability :
    (∀ (s p p2 : String) (c : Option String),
      keyFor (.tup [s, p]) c = keyFor (.tup [s, p2]) c) ∧
    (∀ s : String, keyFor (.str s) none = .str s) ∧
    (∀ l : List String, keyFor (.tup l) none = .str (l.headD "")) ∧
    (∀ (id : PyVal) (c : String), keyFor id (some c) = .tup [id.base, c]) := by
  refine ⟨fun s p p2 c => ?_, fun s => rfl, fun l => rfl, fun id c => rfl⟩
  cases c <;> rfl

/-! ## C9 — save requires a destination -/

/-- C9: `utils.save` raises `FileNotFoundError` exactly when neither an
explicit filename is supplied nor one is bound on the catalog; in every
other case the destination resolves and no such failure is raised. -/
theorem c9_save_signals_missing_destination :
    save none none = .error "FileNotFoundError" ∧
    (∀ (cf : Option String) (f : String), save cf (some f) = .ok f) ∧
    (∀ f : String, save (some f) none = .ok f) :=
  ⟨rfl, fun _ _ => rfl, fun _ => rfl⟩

/-! ## C10 — the pluralizable-id string assertion -/

/-- C10: storing a message with a pluralizable id under a fresh key raises
`AssertionError` when its translated string is a non-empty scalar, and
succeeds when the string is empty, because `Message.__init__` defaults a
falsy string of a pluralizable message to the tuple `("", "")`. -/
theorem c10_plural_add_assertion (c : Catalog) (l : List String) (s : String)
    (locs : List (String × Int)) (fl ac uc pi : List String)
    (ctx : Option String)
    (h : alookup (keyFor (.tup l) ctx) c.messages = none) :
    (s ≠ "" → c.add (.tup l) (.str s) locs fl ac uc pi ctx =
      .error "AssertionError") ∧
    ∃ c', c.add (.tup l) (.str "") locs fl ac uc pi ctx = .ok c' := by
  constructor
  · intro hs
    unfold Catalog.add Catalog.setitem
    simp only [mkMessage_id, mkMessage_context, h, mkMessage_string]
    simp [PyVal.truthy, PyVal.isTup, hs]
  · unfold Catalog.add Catalog.setitem
    simp only [mkMessage_id, mkMessage_context, h, mkMessage_string]
    simp [PyVal.truthy, PyVal.isTup]

/-- C10 (witness): concrete instance on an empty catalog with id
`("s", "p")`. -/
theorem c10_witness :
    ((("x" : String) ≠ "" →
      emptyCatalog.add (.tup ["s", "p"]) (.str "x") [] [] [] [] [] none =
        .error "AssertionError") ∧
    ∃ c', emptyCatalog.add (.tup ["s", "p"]) (.str "") [] [] [] [] [] none =
      .ok c') :=
  c10_plural_add_assertion emptyCatalog ["s", "p"] "x" [] [] [] [] [] none rfl

/-! ## C5 — duplicate assignment unions, never overwrites -/

/-- C5: assigning a second message under an already-stored derived key
unions locations, auto comments, user comments (de-duplicated, original
order first, new items appended) and flags into the existing message, so
no location or comment of either message is lost; the incoming translated
string and id are adopted only when the new message is pluralizable and
the stored one is not. -/
theorem c5_setitem_union (c : Catalog) (m cur : Message)
    (h : alookup (keyFor m.id m.context) c.messages = some cur) :
    ∃ c', c.setitem m = .ok c' ∧
      ∃ m', alookup (keyFor m.id m.context) c'.messages = some m' ∧
        m'.locations = distinct (cur.locations ++ m.locations) ∧
        m'.auto_comments = distinct (cur.auto_comments ++ m.auto_comments) ∧
        m'.user_comments = distinct (cur.user_comments ++ m.user_comments) ∧
        (∀ x : String, x ∈ m'.flags ↔ x ∈ cur.flags ∨ x ∈ m.flags) ∧
        (∀ loc : String × Int,
          loc ∈ cur.locations ∨ loc ∈ m.locations → loc ∈ m'.locations) ∧
        m'.string =
          (if m.pluralizable ∧ ¬ cur.pluralizable then m.string
           else cur.string) ∧
        m'.id =
          (if m.pluralizable ∧ ¬ cur.pluralizable then m.id else cur.id) := by
  unfold Catalog.setitem
  simp only [h]
  refine ⟨_, rfl, _, alookup_dictInsert_self _ _ _, ?_⟩
  by_cases hup : m.pluralizable ∧ ¬ cur.pluralizable
  · refine ⟨?_, ?_, ?_, fun x => ?_, fun loc hloc => ?_, ?_, ?_⟩ <;>
      simp only [if_pos hup, mem_setUnion, mem_distinct, List.mem_append] <;>
      tauto
  · refine ⟨?_, ?_, ?_, fun x => ?_, fun loc hloc => ?_, ?_, ?_⟩ <;>
      simp only [if_neg hup, mem_setUnion, mem_distinct, List.mem_append] <;>
      tauto

/-- C5 (witness): concrete instance — two messages with id `"k"`, distinct
locations and comments, merged without loss. -/
theorem c5_witness :
    ∃ c', (catOf [(.str "k",
        mkMessage (.str "k") (.str "old") [("a.py", 1)] ["f1"] ["ac1"]
          ["uc1"] [] none false)]).setitem
      (mkMessage (.str "k") (.str "new") [("b.py", 2)] ["f2"] ["ac2"]
        ["uc2"] [] none false) = .ok c' ∧
      ∃ m', alookup (keyFor (mkMessage (.str "k") (.str "new") [("b.py", 2)]
          ["f2"] ["ac2"] ["uc2"] [] none false).id
          (mkMessage (.str "k") (.str "new") [("b.py", 2)] ["f2"] ["ac2"]
            ["uc2"] [] none false).context) c'.messages = some m' ∧
        m'.locations = distinct ([("a.py", 1)] ++ [("b.py", 2)]) ∧
        m'.auto_comments = distinct (["ac1"] ++ ["ac2"]) ∧
        m'.user_comments = distinct (["uc1"] ++ ["uc2"]) ∧
        (∀ x : String, x ∈ m'.flags ↔ x ∈ ["f1"] ∨
          x ∈ (mkMessage (.str "k") (.str "new") [("b.py", 2)] ["f2"] ["ac2"]
            ["uc2"] [] none false).flags) ∧
        (∀ loc : String × Int,
          loc ∈ [(("a.py" : String), (1 : Int))] ∨
            loc ∈ (mkMessage (.str "k") (.str "new") [("b.py", 2)] ["f2"]
              ["ac2"] ["uc2"] [] none false).locations →
            loc ∈ m'.locations) ∧
        m'.string =
          (if (mkMessage (.str "k") (.str "new") [("b.py", 2)] ["f2"] ["ac2"]
            ["uc2"] [] none false).pluralizable ∧
              ¬ (mkMessage (.str "k") (.str "old") [("a.py", 1)] ["f1"]
                ["ac1"] ["uc1"] [] none false).pluralizable then
            (mkMessage (.str "k") (.str "new") [("b.py", 2)] ["f2"] ["ac2"]
              ["uc2"] [] none false).string
           else (mkMessage (.str "k") (.str "old") [("a.py", 1)] ["f1"]
              ["ac1"] ["uc1"] [] none false).string) ∧
        m'.id =
          (if (mkMessage (.str "k") (.str "new") [("b.py", 2)] ["f2"] ["ac2"]
            ["ac2"] [] none false).pluralizable ∧
              ¬ (mkMessage (.str "k") (.str "old") [("a.py", 1)] ["f1"]
                ["ac1"] ["uc1"] [] none false).pluralizable then
            (mkMessage (.str "k") (.str "new") [("b.py", 2)] ["f2"] ["ac2"]
              ["uc2"] [] none false).id
           else (mkMessage (.str "k") (.str "old") [("a.py", 1)] ["f1"]
              ["ac1"] ["uc1"] [] none false).id) := by
  have := c5_setitem_union
    (catOf [(.str "k",
      mkMessage (.str "k") (.str "old") [("a.py", 1)] ["f1"] ["ac1"]
        ["uc1"] [] none false)])
    (mkMessage (.str "k") (.str "new") [("b.py", 2)] ["f2"] ["ac2"]
      ["uc2"] [] none false)
    (mkMessage (.str "k") (.str "old") [("a.py", 1)] ["f1"] ["ac1"]
      ["uc1"] [] none false) rfl
  exact this

/-! ## C7 — `difference` pops by raw id, not by derived key -/

/-- C7 (code bug): the catalog stores the scalar `"s"`, the template holds
the pluralizable `("s", "p")` whose derived key `"s"` *is* present — the
spec says the key is marked consumed — but `difference` executes
`remaining.pop(message.id)` with the raw tuple id, which is not a key of
the working copy, and raises `KeyError` instead of classifying. -/
theorem c7_difference_keyerror :
    (alookup (keyFor (.tup ["s", "p"]) none) scalarSCat.messages).isSome ∧
    scalarSCat.difference pluralSTmpl = .error "KeyError" :=
  ⟨rfl, rfl⟩

/-! ## C3 — the fuzzy-match scenario -/

/-- C3 (counterexample): with catalog `"Color" → "Couleur"` and template
`"Colour"`, the claim promises the merged entry `"Colour" → "Couleur"`
with fuzzy set, `previous_id = ["Color"]` and empty obsolete.  The code
never lower-cases the candidate pool, so `"colour"` is compared against
the raw `"Color"` at ratio `8/11 < 0.85`: no match is proposed,
`"Colour"` is stored untranslated and un-fuzzy with no `previous_id`, and
`"Color"` is moved to obsolete. -/
theorem c3_counterexample :
    (colorCat.update colourTmpl false false true).toOption.map
      (fun c =>
        ((alookup (.str "Colour") c.messages).map
          (fun m => (m.string, m.isFuzzy, m.previous_id)),
          c.obsolete.map Prod.fst)) =
      some (some (.str "", false, []), [.str "Color"]) ∧
    ratioQ "Color".data "colour".data < fuzzyCutoff := by
  refine ⟨rfl, ?_⟩
  have h : simScore "Color".data "colour".data = (4, 11) := rfl
  unfold ratioQ fuzzyCutoff
  rw [h]
  norm_num

/-- C3 (amended): the candidate pool holds the raw stored keys — only the
query is lower-cased and trimmed — so the described merge happens when the
stored key is already normalized: with catalog `"color" → "Couleur"` and
template `"Colour"` (ratio `10/11 ≥ 0.85`), update produces the merged
entry `"Colour" → "Couleur"` with fuzzy=true and
`previous_id = ["color"]`, and obsolete stays empty because `"color"` was
claimed by the fuzzy merge. -/
theorem c3_fuzzy_merge_scenario :
    (lowerColorCat.updateFull colourTmpl false false true).toOption.map
      (fun st =>
        ((alookup (.str "Colour") st.cat.messages).map
          (fun m => (m.string, m.isFuzzy, m.previous_id)),
          st.cat.obsolete, st.fuzzyMatches)) =
      some (some (.str "Couleur", true, ["color"]), [], [.str "color"]) ∧
    fuzzyCutoff ≤ ratioQ "color".data "colour".data := by
  refine ⟨rfl, ?_⟩
  have h : simScore "color".data "colour".data = (5, 11) := rfl
  unfold ratioQ fuzzyCutoff
  rw [h]
  norm_num

/-! ## C4 — plural-arity reconciliation: counterexample -/

/-- C4 (counterexample): the catalog expects two plural forms, the entry
under key `"a"` holds three translated forms, and the template id is the
pluralizable `("a", "b")`.  The claim says the inherited tuple is
truncated/padded to the expected plural count (two); the code slices it
with its own length — a no-op — so the merged string keeps all three
forms, with fuzzy forced. -/
theorem c4_counterexample :
    threeFormsCat.numPlurals = 2 ∧
    (threeFormsCat.update pluralTmpl false false true).toOption.map
      (fun c =>
        (alookup (.str "a") c.messages).map
          (fun m => (m.string, m.isFuzzy))) =
      some (some (.tup ["x", "y", "z"], true)) :=
  ⟨rfl, rfl⟩

/-! ## C1 — update preserves translations: counterexample -/

/-- C1 (counterexample): catalog `"1 file" → "un fichier"` (a non-empty
string under the template's only key) merged against the template id
`("1 file", "%d files")`: after update the stored string is the padded
tuple `("un fichier", "")` — not the identical string — and the fuzzy
flag is forced, refuting the claim when the inherited string's shape does
not match the template id. -/
theorem c1_counterexample :
    (alookup (.str "1 file") fileCat.messages).map Message.string =
      some (.str "un fichier") ∧
    (fileCat.update fileTmpl false false true).toOption.map
      (fun c =>
        (alookup (.str "1 file") c.messages).map
          (fun m => (m.string, m.isFuzzy))) =
      some (some (.tup ["un fichier", ""], true)) :=
  ⟨rfl, rfl⟩

/-! ## C2 — no entry vanishes: counterexample -/

/-- C2 (counterexample): catalog `"color" → "Couleur"`, template
`"Colour"`.  The fuzzy merge claims the old key: after update the
pre-existing key `"color"` is neither a key of the main mapping (only
`"Colour"` is) nor of obsolete (which is empty) — it vanished from both
classifications the claim allows. -/
theorem c2_counterexample :
    lowerColorCat.messages.map Prod.fst = [.str "color"] ∧
    (lowerColorCat.update colourTmpl false false true).toOption.map
      (fun c =>
        (alookup (.str "color") c.messages, alookup (.str "color") c.obsolete,
          c.messages.map Prod.fst, c.obsolete.map Prod.fst)) =
      some (none, none, [.str "Colour"], []) :=
  ⟨rfl, rfl⟩

/-! ## C8 — threshold and tie-breaking: counterexample -/

/-- C8 (counterexample): `"abcdefx"` and `"xbcdefg"` both match
`"abcdefg"` at the same ratio `12/14 ≥ 0.85`, yet the matcher returns
`"xbcdefg"`, not the first candidate of the pool: ties are resolved by
Python tuple comparison — the lexicographically larger candidate — not by
candidate pool order. -/
theorem c8_counterexample :
    getCloseMatches1 "abcdefg" ["abcdefx", "xbcdefg"] = some "xbcdefg" ∧
    ratioQ "abcdefx".data "abcdefg".data =
      ratioQ "xbcdefg".data "abcdefg".data ∧
    fuzzyCutoff ≤ ratioQ "abcdefx".data "abcdefg".data := by
  refine ⟨rfl, ?_, ?_⟩
  · have h1 : simScore "abcdefx".data "abcdefg".data = (6, 14) := rfl
    have h2 : simScore "xbcdefg".data "abcdefg".data = (6, 14) := rfl
    unfold ratioQ
    rw [h1, h2]
  · have h1 : simScore "abcdefx".data "abcdefg".data = (6, 14) := rfl
    unfold ratioQ fuzzyCutoff
    rw [h1]
    norm_num

/-! ## C4 — plural-arity reconciliation (amended) -/

/-- C4 (amended): in `_merge`'s exact-key path (old key = new key, old
entry found in the remaining snapshot, and the rebuilt mapping not yet
holding the key), the arity reconciliation behaves as follows.
(1) Pluralizable template id over an inherited scalar string: the string
is padded into a tuple of the id's arity with empty strings for the
missing forms, and fuzzy is forced.  (2) Pluralizable template id over an
inherited tuple whose length differs from the catalog's plural count:
fuzzy is forced but the tuple keeps its own forms unchanged (the slice
bound is the tuple's own length).  (3) Singular template id over an
inherited tuple: only the first form is kept, and fuzzy is forced. -/
theorem c4_plural_reconciliation :
    (∀ (np : Nat) (snapshot : List (PyVal × Message)) (keep : Bool)
      (st : UpdateSt) (m old : Message) (idForms : List String) (s : String),
      m.id = .tup idForms →
      alookup (keyFor m.id m.context) st.remaining = some old →
      alookup (keyFor m.id m.context) st.cat.messages = none →
      old.string = .str s →
      ∃ st', mergeStep np snapshot keep st m (keyFor m.id m.context)
          (keyFor m.id m.context) false = .ok st' ∧
        ∃ m', alookup (keyFor m.id m.context) st'.cat.messages = some m' ∧
          m'.string = .tup (s :: List.replicate (idForms.length - 1) "") ∧
          m'.isFuzzy = true) ∧
    (∀ (np : Nat) (snapshot : List (PyVal × Message)) (keep : Bool)
      (st : UpdateSt) (m old : Message) (idForms fs : List String),
      m.id = .tup idForms →
      alookup (keyFor m.id m.context) st.remaining = some old →
      alookup (keyFor m.id m.context) st.cat.messages = none →
      old.string = .tup fs →
      fs.length ≠ np →
      ∃ st', mergeStep np snapshot keep st m (keyFor m.id m.context)
          (keyFor m.id m.context) false = .ok st' ∧
        ∃ m', alookup (keyFor m.id m.context) st'.cat.messages = some m' ∧
          m'.string = .tup fs ∧
          m'.isFuzzy = true) ∧
    (∀ (np : Nat) (snapshot : List (PyVal × Message)) (keep : Bool)
      (st : UpdateSt) (m old : Message) (t s0 : String) (rest : List String),
      m.id = .str t →
      t ≠ "" →
      alookup (keyFor m.id m.context) st.remaining = some old →
      alookup (keyFor m.id m.context) st.cat.messages = none →
      old.string = .tup (s0 :: rest) →
      ∃ st', mergeStep np snapshot keep st m (keyFor m.id m.context)
          (keyFor m.id m.context) false = .ok st' ∧
        ∃ m', alookup (keyFor m.id m.context) st'.cat.messages = some m' ∧
          m'.string = .str s0 ∧
          m'.isFuzzy = true) := by
  refine ⟨?_, ?_, ?_⟩
  · intro np snapshot keep st m old idForms s hid hrem hfresh hstr
    obtain ⟨mid, mstr, mlocs, mfl, mac, muc, mpi, mctx, mmod⟩ := m
    obtain ⟨oid, ostr, olocs, ofl, oac, ouc, opi, octx, omod⟩ := old
    simp only [] at hid hstr
    subst hid
    subst hstr
    unfold mergeStep reconcileArity mergeFinalize Message.clone mkMessage Catalog.setitem
    simp only [eq_self_iff_true, if_true, hrem]
    cases keep <;>
      simp only [Bool.false_eq_true, if_false, if_true, reduceCtorEq, hfresh,
        PyVal.isTup, Message.setFuzzy, Bool.not_true, and_false, if_neg,
        false_and, Bool.true_eq_false] <;>
      refine ⟨_, rfl, _, alookup_dictInsert_self _ _ _, rfl, ?_⟩ <;>
      simp [Message.isFuzzy, mem_setAdd]
  · intro np snapshot keep st m old idForms fs hid hrem hfresh hstr hlen
    obtain ⟨mid, mstr, mlocs, mfl, mac, muc, mpi, mctx, mmod⟩ := m
    obtain ⟨oid, ostr, olocs, ofl, oac, ouc, opi, octx, omod⟩ := old
    simp only [] at hid hstr
    subst hid
    subst hstr
    unfold mergeStep reconcileArity mergeFinalize Message.clone mkMessage Catalog.setitem
    simp only [eq_self_iff_true, if_true, hrem]
    cases keep <;>
      simp only [Bool.false_eq_true, if_false, if_true, reduceCtorEq, hfresh,
        if_pos hlen, PyVal.pyLen, List.take_length, PyVal.isTup,
        Message.setFuzzy, Bool.not_true, and_false, if_neg, false_and,
        Bool.true_eq_false] <;>
      refine ⟨_, rfl, _, alookup_dictInsert_self _ _ _, rfl, ?_⟩ <;>
      simp [Message.isFuzzy, mem_setAdd]
  · intro np snapshot keep st m old t s0 rest hid ht hrem hfresh hstr
    obtain ⟨mid, mstr, mlocs, mfl, mac, muc, mpi, mctx, mmod⟩ := m
    obtain ⟨oid, ostr, olocs, ofl, oac, ouc, opi, octx, omod⟩ := old
    simp only [] at hid hstr
    subst hid
    subst hstr
    unfold mergeStep reconcileArity mergeFinalize Message.clone mkMessage Catalog.setitem
    simp only [eq_self_iff_true, if_true, hrem]
    cases keep <;>
      simp only [Bool.false_eq_true, if_false, if_true, reduceCtorEq, hfresh,
        PyVal.str.injEq, ht, PyVal.isTup, Message.setFuzzy, Bool.not_true,
        and_false, if_neg, false_and, Bool.true_eq_false, if_false] <;>
      refine ⟨_, rfl, _, alookup_dictInsert_self _ _ _, rfl, ?_⟩ <;>
      simp [Message.isFuzzy, mem_setAdd]

/-- C4 (witness): the spec's own example — plural id
`("1 file", "%d files")` merged against the inherited scalar
`"un fichier"` yields `("un fichier", "")` with fuzzy forced. -/
theorem c4_witness :
    ∃ st', mergeStep 2 fileCat.messages true
        ⟨catOf [], fileCat.messages, []⟩
        (msgOf (.tup ["1 file", "%d files"]) (.str ""))
        (keyFor (msgOf (.tup ["1 file", "%d files"]) (.str "")).id
          (msgOf (.tup ["1 file", "%d files"]) (.str "")).context)
        (keyFor (msgOf (.tup ["1 file", "%d files"]) (.str "")).id
          (msgOf (.tup ["1 file", "%d files"]) (.str "")).context)
        false = .ok st' ∧
      ∃ m', alookup (keyFor (msgOf (.tup ["1 file", "%d files"]) (.str "")).id
          (msgOf (.tup ["1 file", "%d files"]) (.str "")).context)
          st'.cat.messages = some m' ∧
        m'.string = .tup ("un fichier" ::
          List.replicate ((["1 file", "%d files"] : List String).length - 1) "") ∧
        m'.isFuzzy = true :=
  c4_plural_reconciliation.1 2 fileCat.messages true
    ⟨catOf [], fileCat.messages, []⟩
    (msgOf (.tup ["1 file", "%d files"]) (.str ""))
    (msgOf (.str "1 file") (.str "un fichier"))
    ["1 file", "%d files"] "un fichier" rfl rfl rfl rfl

/-! ## C8 support: the matcher as an order on (ratio, candidate) pairs -/

theorem pyStrLt_irrefl (s : List Char) : pyStrLt s s = false := by
  induction s with
  | nil => rfl
  | cons c cs ih => simp [pyStrLt, ih]

theorem pyStrLt_trans (s t u : List Char) (h1 : pyStrLt s t = true)
    (h2 : pyStrLt t u = true) : pyStrLt s u = true := by
  induction s generalizing t u with
  | nil =>
    cases t with
    | nil => simp [pyStrLt] at h1
    | cons d ds =>
      cases u with
      | nil => simp [pyStrLt] at h2
      | cons e es => simp [pyStrLt]
  | cons c cs ih =>
    cases t with
    | nil => simp [pyStrLt] at h1
    | cons d ds =>
      cases u with
      | nil => simp [pyStrLt] at h2
      | cons e es =>
        simp only [pyStrLt, decide_eq_true_eq] at h1 h2 ⊢
        rcases h1 with h1 | ⟨rfl, h1⟩
        · rcases h2 with h2 | ⟨rfl, h2⟩
          · exact Or.inl (Nat.lt_trans h1 h2)
          · exact Or.inl h1
        · rcases h2 with h2 | ⟨rfl, h2⟩
          · exact Or.inl h2
          · exact Or.inr ⟨rfl, ih _ _ h1 h2⟩

theorem pyStrLt_total (s t : List Char) :
    pyStrLt s t = true ∨ pyStrLt t s = true ∨ s = t := by
  induction s generalizing t with
  | nil =>
    cases t with
    | nil => right; right; rfl
    | cons d ds => left; simp [pyStrLt]
  | cons c cs ih =>
    cases t with
    | nil => right; left; simp [pyStrLt]
    | cons d ds =>
      rcases Nat.lt_trichotomy c.toNat d.toNat with h | h | h
      · left; simp [pyStrLt, h]
      · have hcd : c = d := Char.ext (by
          have : c.val.toNat = d.val.toNat := h
          exact UInt32.toNat.inj this)
        subst hcd
        rcases ih ds with h1 | h1 | h1
        · left; simp [pyStrLt, h1]
        · right; left; simp [pyStrLt, h1]
        · right; right; rw [h1]
      · right; left; simp [pyStrLt, h]



theorem simScore_den_pos (a b : List Char) : 0 < (simScore a b).2 := by
  unfold simScore
  by_cases h : a.length + b.length = 0
  · simp [h]
  · simp [h]
    omega

theorem cutoffLe_iff (a b : List Char) :
    cutoffLe (simScore a b) = true ↔ fuzzyCutoff ≤ ratioQ a b := by
  have hp : 0 < (simScore a b).2 := simScore_den_pos a b
  unfold cutoffLe fuzzyCutoff ratioQ
  rw [div_le_div_iff (by norm_num) (by exact_mod_cast hp)]
  rw [show ((2 : ℚ) * ((simScore a b).1 : ℚ)) * 20 = 40 * ((simScore a b).1 : ℚ) by ring]
  rw [decide_eq_true_eq]
  exact_mod_cast Iff.rfl

theorem scoreLtB_iff (a b c d : List Char) :
    scoreLtB (simScore a b) (simScore c d) = true ↔ ratioQ a b < ratioQ c d := by
  have hp1 : 0 < (simScore a b).2 := simScore_den_pos a b
  have hp2 : 0 < (simScore c d).2 := simScore_den_pos c d
  unfold scoreLtB ratioQ
  rw [div_lt_div_iff (by exact_mod_cast hp1) (by exact_mod_cast hp2)]
  rw [show ((2 : ℚ) * ((simScore a b).1 : ℚ)) * ((simScore c d).2 : ℚ) =
    2 * (((simScore a b).1 : ℚ) * ((simScore c d).2 : ℚ)) by ring]
  rw [show ((2 : ℚ) * ((simScore c d).1 : ℚ)) * ((simScore a b).2 : ℚ) =
    2 * (((simScore c d).1 : ℚ) * ((simScore a b).2 : ℚ)) by ring]
  rw [mul_lt_mul_left (by norm_num : (0:ℚ) < 2)]
  rw [decide_eq_true_eq]
  exact_mod_cast Iff.rfl

theorem scoreEqB_iff (a b c d : List Char) :
    scoreEqB (simScore a b) (simScore c d) = true ↔ ratioQ a b = ratioQ c d := by
  have hp1 : 0 < (simScore a b).2 := simScore_den_pos a b
  have hp2 : 0 < (simScore c d).2 := simScore_den_pos c d
  unfold scoreEqB ratioQ
  rw [div_eq_div_iff (Nat.cast_ne_zero.mpr hp1.ne') (Nat.cast_ne_zero.mpr hp2.ne')]
  rw [show ((2 : ℚ) * ((simScore a b).1 : ℚ)) * ((simScore c d).2 : ℚ) =
    2 * (((simScore a b).1 : ℚ) * ((simScore c d).2 : ℚ)) by ring]
  rw [show ((2 : ℚ) * ((simScore c d).1 : ℚ)) * ((simScore a b).2 : ℚ) =
    2 * (((simScore c d).1 : ℚ) * ((simScore a b).2 : ℚ)) by ring]
  rw [mul_right_inj' (by norm_num : (2:ℚ) ≠ 0)]
  rw [decide_eq_true_eq]
  exact_mod_cast Iff.rfl

theorem scoredGt_iff (w : String) (x y : String) :
    scoredGt (simScore x.data w.data, x) (simScore y.data w.data, y) = true ↔
      ratioQ y.data w.data < ratioQ x.data w.data ∨
      (ratioQ x.data w.data = ratioQ y.data w.data ∧
        pyStrLt y.data x.data = true) := by
  unfold scoredGt
  simp only [Bool.or_eq_true, Bool.and_eq_true, scoreLtB_iff, scoreEqB_iff,
    decide_eq_true_eq]



theorem scoredGt_irrefl (p : (Nat × Nat) × String) : scoredGt p p = false := by
  simp [scoredGt, scoreLtB, pyStrLt_irrefl]

theorem scoredGt_trans (w x y z : String)
    (h1 : scoredGt (simScore x.data w.data, x) (simScore y.data w.data, y) = true)
    (h2 : scoredGt (simScore y.data w.data, y) (simScore z.data w.data, z) = true) :
    scoredGt (simScore x.data w.data, x) (simScore z.data w.data, z) = true := by
  rw [scoredGt_iff] at h1 h2 ⊢
  rcases h1 with h1 | ⟨he1, hs1⟩
  · rcases h2 with h2 | ⟨he2, hs2⟩
    · exact Or.inl (lt_trans h2 h1)
    · exact Or.inl (he2 ▸ h1)
  · rcases h2 with h2 | ⟨he2, hs2⟩
    · exact Or.inl (he1 ▸ h2)
    · exact Or.inr ⟨he1.trans he2, pyStrLt_trans _ _ _ hs2 hs1⟩

theorem scoredGt_negtrans (w x y z : String)
    (h1 : scoredGt (simScore x.data w.data, x) (simScore y.data w.data, y) = false)
    (h2 : scoredGt (simScore y.data w.data, y) (simScore z.data w.data, z) = false) :
    scoredGt (simScore x.data w.data, x) (simScore z.data w.data, z) = false := by
  rw [← Bool.not_eq_true, scoredGt_iff] at h1 h2 ⊢
  push_neg at h1 h2 ⊢
  obtain ⟨hlt1, heq1⟩ := h1
  obtain ⟨hlt2, heq2⟩ := h2
  constructor
  · exact le_trans hlt1 hlt2
  · intro he hzx
    have h2' : ratioQ y.data w.data ≤ ratioQ x.data w.data := by
      rw [he]; exact hlt2
    have hxy : ratioQ x.data w.data = ratioQ y.data w.data :=
      le_antisymm hlt1 h2'
    have hyz : ratioQ y.data w.data = ratioQ z.data w.data := by
      rw [← hxy]; exact he
    have hnyx := heq1 hxy
    have hnzy := heq2 hyz
    rcases pyStrLt_total x.data y.data with hxy' | hyx' | hexy
    · exact hnzy (pyStrLt_trans _ _ _ hzx hxy')
    · exact hnyx hyx'
    · exact hnzy (hexy ▸ hzx)

theorem foldBest_spec (w : String) (ps : List ((Nat × Nat) × String)) :
    ∀ (p : (Nat × Nat) × String),
      (∃ y, p = (simScore y.data w.data, y)) →
      (∀ q ∈ ps, ∃ y, q = (simScore y.data w.data, y)) →
      ((ps.foldl (fun best q => if scoredGt q best then q else best) p) = p ∨
        (ps.foldl (fun best q => if scoredGt q best then q else best) p) ∈ ps) ∧
      scoredGt p
        (ps.foldl (fun best q => if scoredGt q best then q else best) p) = false ∧
      ∀ q ∈ ps, scoredGt q
        (ps.foldl (fun best q => if scoredGt q best then q else best) p) = false := by
  induction ps with
  | nil =>
    intro p _ _
    exact ⟨Or.inl rfl, scoredGt_irrefl p, by simp⟩
  | cons q ps ih =>
    intro p hp hqs
    have hq : ∃ y, q = (simScore y.data w.data, y) := hqs q (List.mem_cons_self _ _)
    have hqs' : ∀ r ∈ ps, ∃ y, r = (simScore y.data w.data, y) :=
      fun r hr => hqs r (List.mem_cons_of_mem _ hr)
    simp only [List.foldl_cons]
    by_cases hgt : scoredGt q p = true
    · rw [if_pos hgt]
      obtain ⟨hmem, hle, hall⟩ := ih q hq hqs'
      refine ⟨?_, ?_, ?_⟩
      · rcases hmem with h | h
        · rw [h]; exact Or.inr (List.mem_cons_self _ _)
        · exact Or.inr (List.mem_cons_of_mem _ h)
      · -- p ≤ b since p < q ≤ b
        obtain ⟨yp, rfl⟩ := hp
        obtain ⟨yq, rfl⟩ := hq
        have hbshape : ∃ y, (ps.foldl (fun best q => if scoredGt q best then q else best)
            (simScore yq.data w.data, yq)) = (simScore y.data w.data, y) := by
          rcases hmem with h | h
          · exact ⟨yq, h⟩
          · exact hqs' _ h
        obtain ⟨yb, hb⟩ := hbshape
        rw [hb] at hle ⊢
        rw [← Bool.not_eq_true]
        intro hpb
        exact absurd (scoredGt_trans w yq yp yb hgt hpb) (by simp [hle])
      · intro r hr
        rcases List.mem_cons.mp hr with rfl | hr'
        · exact hle
        · exact hall r hr'
    · rw [if_neg hgt]
      obtain ⟨hmem, hle, hall⟩ := ih p hp hqs'
      refine ⟨?_, hle, ?_⟩
      · rcases hmem with h | h
        · exact Or.inl h
        · exact Or.inr (List.mem_cons_of_mem _ h)
      · intro r hr
        rcases List.mem_cons.mp hr with rfl | hr'
        · -- r = q: q ≤ p ≤ b
          obtain ⟨yp, rfl⟩ := hp
          obtain ⟨yq, rfl⟩ := hq
          have hbshape : ∃ y, (ps.foldl (fun best q => if scoredGt q best then q else best)
              (simScore yp.data w.data, yp)) = (simScore y.data w.data, y) := by
            rcases hmem with h | h
            · exact ⟨yp, h⟩
            · exact hqs' _ h
          obtain ⟨yb, hb⟩ := hbshape
          rw [hb] at hle ⊢
          exact scoredGt_negtrans w yq yp yb (by simpa using hgt) hle
        · exact hall r hr'

theorem mem_gcmFilter (w : String) (pool : List String)
    (e : (Nat × Nat) × String) :
    e ∈ gcmFilter w pool ↔
      ∃ y ∈ pool, cutoffLe (simScore y.data w.data) = true ∧
        e = (simScore y.data w.data, y) := by
  unfold gcmFilter
  rw [List.mem_filterMap]
  constructor
  · rintro ⟨y, hy, h⟩
    by_cases hc : cutoffLe (simScore y.data w.data) = true
    · rw [if_pos hc] at h
      exact ⟨y, hy, hc, (Option.some_inj.mp h).symm⟩
    · rw [if_neg hc] at h
      exact absurd h (by simp)
  · rintro ⟨y, hy, hc, rfl⟩
    exact ⟨y, hy, by rw [if_pos hc]⟩

/-! ## C8 — the matcher contract (amended) -/

/-- C8 (amended): a candidate whose similarity ratio (`2*M/T` over the
recursively-found longest matching blocks) lies below the 0.85 cutoff is
never proposed; when a candidate is returned it is in the pool, at or
above the cutoff, and it maximizes the `(ratio, candidate)` pair: every
other at-cutoff candidate either has a strictly smaller ratio or ties on
the ratio without being lexicographically larger — ties are resolved
toward the lexicographically larger candidate string, not by pool
order. -/
theorem c8_matcher_spec :
    (∀ (w : String) (pool : List String) (x : String),
      ratioQ x.data w.data < fuzzyCutoff → getCloseMatches1 w pool ≠ some x) ∧
    (∀ (w : String) (pool : List String) (x : String),
      getCloseMatches1 w pool = some x →
        x ∈ pool ∧ fuzzyCutoff ≤ ratioQ x.data w.data ∧
        ∀ y ∈ pool, fuzzyCutoff ≤ ratioQ y.data w.data →
          ratioQ y.data w.data < ratioQ x.data w.data ∨
          (ratioQ y.data w.data = ratioQ x.data w.data ∧
            pyStrLt x.data y.data = false)) := by
  have main : ∀ (w : String) (pool : List String) (x : String),
      getCloseMatches1 w pool = some x →
        x ∈ pool ∧ fuzzyCutoff ≤ ratioQ x.data w.data ∧
        ∀ y ∈ pool, fuzzyCutoff ≤ ratioQ y.data w.data →
          ratioQ y.data w.data < ratioQ x.data w.data ∨
          (ratioQ y.data w.data = ratioQ x.data w.data ∧
            pyStrLt x.data y.data = false) := by
    intro w pool x hres
    unfold getCloseMatches1 at hres
    rcases hsc : gcmFilter w pool with _ | ⟨p, ps⟩
    · rw [hsc] at hres
      exact absurd hres (by simp)
    · rw [hsc] at hres
      have hx : (ps.foldl (fun best q => if scoredGt q best then q else best)
          p).2 = x := Option.some_inj.mp hres
      have hpshape : ∃ y, p = (simScore y.data w.data, y) := by
        have : p ∈ gcmFilter w pool := by rw [hsc]; exact List.mem_cons_self _ _
        obtain ⟨y, _, _, he⟩ := (mem_gcmFilter w pool p).mp this
        exact ⟨y, he⟩
      have hqshape : ∀ q ∈ ps, ∃ y, q = (simScore y.data w.data, y) := by
        intro q hq
        have : q ∈ gcmFilter w pool := by
          rw [hsc]; exact List.mem_cons_of_mem _ hq
        obtain ⟨y, _, _, he⟩ := (mem_gcmFilter w pool q).mp this
        exact ⟨y, he⟩
      obtain ⟨hmem, hle, hall⟩ := foldBest_spec w ps p hpshape hqshape
      have hbmem : (ps.foldl (fun best q => if scoredGt q best then q else best)
          p) ∈ gcmFilter w pool := by
        rw [hsc]
        rcases hmem with h | h
        · rw [h]; exact List.mem_cons_self _ _
        · exact List.mem_cons_of_mem _ h
      obtain ⟨yb, hybpool, hybcut, hbshape⟩ :=
        (mem_gcmFilter w pool _).mp hbmem
      have hxyb : x = yb := by rw [← hx, hbshape]
      subst hxyb
      refine ⟨hybpool, (cutoffLe_iff _ _).mp hybcut, ?_⟩
      intro y hy hcut
      have hymem : (simScore y.data w.data, y) ∈ gcmFilter w pool :=
        (mem_gcmFilter w pool _).mpr ⟨y, hy, (cutoffLe_iff _ _).mpr hcut, rfl⟩
      have hgb : scoredGt (simScore y.data w.data, y)
          (simScore x.data w.data, x) = false := by
        rw [← hbshape]
        rw [hsc] at hymem
        rcases List.mem_cons.mp hymem with h | h
        · rw [h]; exact hle
        · exact hall _ h
      rw [← Bool.not_eq_true, scoredGt_iff] at hgb
      push_neg at hgb
      obtain ⟨hle', himp⟩ := hgb
      rcases lt_or_eq_of_le hle' with h | h
      · exact Or.inl h
      · exact Or.inr ⟨h, Bool.eq_false_iff.mpr (himp h)⟩
  refine ⟨fun w pool x hlt heq => ?_, main⟩
  exact absurd (main w pool x heq).2.1 (not_le.mpr hlt)

/-- C8 (witness): `"ab"` scores `4/9 < 0.85` against `"abcdefg"` and is
never proposed. -/
theorem c8_witness : getCloseMatches1 "abcdefg" ["ab"] ≠ some "ab" :=
  c8_matcher_spec.1 "abcdefg" ["ab"] "ab" (by
    have h : simScore "ab".data "abcdefg".data = (2, 9) := rfl
    unfold ratioQ fuzzyCutoff
    rw [h]
    norm_num)

/-! ## Setitem and merge-step decomposition lemmas -/

theorem setitem_ok_mono (c : Catalog) (m : Message) (c' : Catalog)
    (h : c.setitem m = .ok c') (k : PyVal)
    (hk : (alookup k c.messages).isSome) : (alookup k c'.messages).isSome := by
  rcases hcur : alookup (keyFor m.id m.context) c.messages with _ | cur <;>
    simp only [Catalog.setitem, hcur] at h
  · by_cases hid : m.id = .str ""
    · rw [if_pos hid] at h
      injection h with h2
      rw [← h2]
      exact hk
    · rw [if_neg hid] at h
      by_cases ha : m.id.isTup = true ∧ ¬ m.string.isTup = true
      · rw [if_pos ha] at h
        exact absurd h (by simp)
      · rw [if_neg ha] at h
        injection h with h2
        rw [← h2]
        by_cases hkk : k = keyFor m.id m.context
        · subst hkk
          rw [alookup_dictInsert_self]
          simp
        · rw [alookup_dictInsert_ne _ _ _ _ hkk]
          exact hk
  · injection h with h2
    rw [← h2]
    by_cases hkk : k = keyFor m.id m.context
    · subst hkk
      rw [alookup_dictInsert_self]
      simp
    · rw [alookup_dictInsert_ne _ _ _ _ hkk]
      exact hk

theorem setitem_stores (c : Catalog) (m : Message) (c' : Catalog)
    (h : c.setitem m = .ok c') (hid : m.id ≠ .str "") :
    (alookup (keyFor m.id m.context) c'.messages).isSome := by
  rcases hcur : alookup (keyFor m.id m.context) c.messages with _ | cur <;>
    simp only [Catalog.setitem, hcur] at h
  · rw [if_neg hid] at h
    by_cases ha : m.id.isTup = true ∧ ¬ m.string.isTup = true
    · rw [if_pos ha] at h
      exact absurd h (by simp)
    · rw [if_neg ha] at h
      injection h with h2
      rw [← h2]
      rw [alookup_dictInsert_self]
      simp
  · injection h with h2
    rw [← h2]
    rw [alookup_dictInsert_self]
    simp

theorem setitem_preserves_ne (c : Catalog) (m : Message) (c' : Catalog)
    (h : c.setitem m = .ok c') (k : PyVal)
    (hk : k ≠ keyFor m.id m.context) :
    alookup k c'.messages = alookup k c.messages := by
  rcases hcur : alookup (keyFor m.id m.context) c.messages with _ | cur <;>
    simp only [Catalog.setitem, hcur] at h
  · by_cases hid : m.id = .str ""
    · rw [if_pos hid] at h
      injection h with h2
      rw [← h2]
    · rw [if_neg hid] at h
      by_cases ha : m.id.isTup = true ∧ ¬ m.string.isTup = true
      · rw [if_pos ha] at h
        exact absurd h (by simp)
      · rw [if_neg ha] at h
        injection h with h2
        rw [← h2]
        exact alookup_dictInsert_ne _ _ _ _ hk
  · injection h with h2
    rw [← h2]
    exact alookup_dictInsert_ne _ _ _ _ hk

theorem setitem_obsolete (c : Catalog) (m : Message) (c' : Catalog)
    (h : c.setitem m = .ok c') :
    c'.obsolete = c.obsolete ∧ c'.numPlurals = c.numPlurals := by
  rcases hcur : alookup (keyFor m.id m.context) c.messages with _ | cur <;>
    simp only [Catalog.setitem, hcur] at h
  · by_cases hid : m.id = .str ""
    · rw [if_pos hid] at h
      injection h with h2
      rw [← h2]
      exact ⟨rfl, rfl⟩
    · rw [if_neg hid] at h
      by_cases ha : m.id.isTup = true ∧ ¬ m.string.isTup = true
      · rw [if_pos ha] at h
        exact absurd h (by simp)
      · rw [if_neg ha] at h
        injection h with h2
        rw [← h2]
        exact ⟨rfl, rfl⟩
  · injection h with h2
    rw [← h2]
    exact ⟨rfl, rfl⟩

theorem setitem_fresh_insert (c : Catalog) (m : Message)
    (hfresh : alookup (keyFor m.id m.context) c.messages = none)
    (hid : m.id ≠ .str "") (ha : ¬ (m.id.isTup = true ∧ ¬ m.string.isTup = true)) :
    c.setitem m =
      .ok { c with messages := dictInsert c.messages (keyFor m.id m.context) m } := by
  simp only [Catalog.setitem, hfresh]
  rw [if_neg hid, if_neg ha]



theorem pyTruthy_ne_empty (v : PyVal) (h : v.truthy = true) : v ≠ .str "" := by
  cases v with
  | str s =>
    simp [PyVal.truthy] at h
    simp [h]
  | tup l => simp

theorem reconcileArity_ok (np : Nat) (old msg : Message) (fz : Bool)
    (msg' : Message) (fz' : Bool)
    (h : reconcileArity np old msg fz = .ok (msg', fz')) :
    msg'.id = msg.id ∧ msg'.context = msg.context := by
  unfold reconcileArity at h
  repeat' split at h
  all_goals simp only [Except.ok.injEq, Prod.mk.injEq, reduceCtorEq] at h
  all_goals obtain ⟨h1, h2⟩ := h
  all_goals rw [← h1]
  all_goals exact ⟨rfl, rfl⟩

theorem mergeFinalize_ok (st : UpdateSt) (old msg : Message) (fz : Bool)
    (st' : UpdateSt) (h : mergeFinalize st old msg fz = .ok st') :
    ∃ msg₂ cat₂, msg₂.id = msg.id ∧ msg₂.context = msg.context ∧
      st.cat.setitem msg₂ = .ok cat₂ ∧
      st' = ⟨cat₂, st.remaining, st.fuzzyMatches⟩ := by
  unfold mergeFinalize at h
  cases fz <;> simp only [Bool.false_eq_true, if_false, if_true] at h <;>
    split at h
  · exact absurd h (by simp)
  · next cat heq =>
    injection h with h2
    exact ⟨{ msg with flags := setUnion msg.flags old.flags }, cat, rfl, rfl,
      heq, h2.symm⟩
  · exact absurd h (by simp)
  · next cat heq =>
    injection h with h2
    exact ⟨({ msg with flags := setUnion msg.flags old.flags }).setFuzzy true,
      cat, rfl, rfl, heq, h2.symm⟩



theorem mergeStep_ok (np : Nat) (snap : List (PyVal × Message)) (keep : Bool)
    (st : UpdateSt) (m : Message) (oldkey newkey : PyVal) (fz : Bool)
    (st' : UpdateSt)
    (h : mergeStep np snap keep st m oldkey newkey fz = .ok st') :
    ∃ msg₂ cat₂, msg₂.id = m.id ∧ msg₂.context = m.context ∧
      st.cat.setitem msg₂ = .ok cat₂ ∧ st'.cat = cat₂ ∧
      ((oldkey = newkey ∧ st'.remaining = dictRemove st.remaining oldkey ∧
        st'.fuzzyMatches = st.fuzzyMatches) ∨
       (st'.remaining = st.remaining ∧
        st'.fuzzyMatches = setAdd st.fuzzyMatches oldkey)) := by
  simp only [mergeStep] at h
  by_cases hk : oldkey = newkey
  · rw [if_pos hk] at h
    rcases hrem : alookup oldkey st.remaining with _ | oldmsg <;>
      rw [hrem] at h <;> simp only [] at h
    · exact absurd h (by simp)
    · cases keep <;>
        simp only [Bool.false_eq_true, if_false, if_true] at h <;>
        split at h
      · exact absurd h (by simp)
      · rename_i msg1 fz1 hrec
        obtain ⟨msg₂, cat₂, hid2, hctx2, hset, hst'⟩ :=
          mergeFinalize_ok _ _ _ _ _ h
        obtain ⟨hid3, hctx3⟩ := reconcileArity_ok _ _ _ _ _ _ hrec
        refine ⟨msg₂, cat₂, hid2.trans (hid3.trans rfl),
          hctx2.trans (hctx3.trans rfl), hset, ?_, Or.inl ⟨hk, ?_, ?_⟩⟩
        · rw [hst']
        · rw [hst']
        · rw [hst']
      · exact absurd h (by simp)
      · rename_i msg1 fz1 hrec
        obtain ⟨msg₂, cat₂, hid2, hctx2, hset, hst'⟩ :=
          mergeFinalize_ok _ _ _ _ _ h
        obtain ⟨hid3, hctx3⟩ := reconcileArity_ok _ _ _ _ _ _ hrec
        refine ⟨msg₂, cat₂, hid2.trans (hid3.trans rfl),
          hctx2.trans (hctx3.trans rfl), hset, ?_, Or.inl ⟨hk, ?_, ?_⟩⟩
        · rw [hst']
        · rw [hst']
        · rw [hst']
  · rw [if_neg hk] at h
    rcases hsnap : alookup oldkey snap with _ | oldmsg <;>
      rw [hsnap] at h <;> simp only [] at h
    · exact absurd h (by simp)
    · cases keep <;>
        simp only [Bool.false_eq_true, if_false, if_true] at h <;>
        split at h
      · exact absurd h (by simp)
      · rename_i msg1 fz1 hrec
        obtain ⟨msg₂, cat₂, hid2, hctx2, hset, hst'⟩ :=
          mergeFinalize_ok _ _ _ _ _ h
        obtain ⟨hid3, hctx3⟩ := reconcileArity_ok _ _ _ _ _ _ hrec
        refine ⟨msg₂, cat₂, hid2.trans (hid3.trans rfl),
          hctx2.trans (hctx3.trans rfl), hset, ?_, Or.inr ⟨?_, ?_⟩⟩
        · rw [hst']
        · rw [hst']
        · rw [hst']
      · exact absurd h (by simp)
      · rename_i msg1 fz1 hrec
        obtain ⟨msg₂, cat₂, hid2, hctx2, hset, hst'⟩ :=
          mergeFinalize_ok _ _ _ _ _ h
        obtain ⟨hid3, hctx3⟩ := reconcileArity_ok _ _ _ _ _ _ hrec
        refine ⟨msg₂, cat₂, hid2.trans (hid3.trans rfl),
          hctx2.trans (hctx3.trans rfl), hset, ?_, Or.inr ⟨?_, ?_⟩⟩
        · rw [hst']
        · rw [hst']
        · rw [hst']



theorem mergeStep_step_facts (np : Nat) (snap : List (PyVal × Message))
    (keep : Bool) (st st₁ : UpdateSt) (m : Message) (oldkey : PyVal)
    (fz : Bool) (ht : m.id.truthy = true)
    (h : mergeStep np snap keep st m oldkey (keyFor m.id m.context) fz =
      .ok st₁) :
    (∀ k, (alookup k st.cat.messages).isSome →
      (alookup k st₁.cat.messages).isSome) ∧
    (∀ k, (alookup k st.remaining).isSome →
      (alookup k st₁.remaining).isSome ∨
        (alookup k st₁.cat.messages).isSome) ∧
    (∀ k, k ∈ st.fuzzyMatches → k ∈ st₁.fuzzyMatches) ∧
    (alookup (keyFor m.id m.context) st₁.cat.messages).isSome ∧
    st₁.cat.obsolete = st.cat.obsolete := by
  obtain ⟨msg₂, cat₂, hid2, hctx2, hset, hcat, hdisj⟩ :=
    mergeStep_ok _ _ _ _ _ _ _ _ _ h
  have hkey : keyFor msg₂.id msg₂.context = keyFor m.id m.context := by
    rw [hid2, hctx2]
  have hne : msg₂.id ≠ .str "" := by
    rw [hid2]; exact pyTruthy_ne_empty _ ht
  have hstores := setitem_stores _ _ _ hset hne
  rw [hkey] at hstores
  refine ⟨?_, ?_, ?_, ?_, ?_⟩
  · intro k hk
    rw [hcat]
    exact setitem_ok_mono _ _ _ hset k hk
  · intro k hk
    rcases hdisj with ⟨hkeq, hrem, _⟩ | ⟨hrem, _⟩
    · by_cases hko : k = oldkey
      · subst hko
        right
        rw [hcat, hkeq]
        exact hstores
      · left
        rw [hrem, alookup_dictRemove_ne _ _ _ hko]
        exact hk
    · left
      rw [hrem]
      exact hk
  · intro k hk
    rcases hdisj with ⟨_, _, hfm⟩ | ⟨_, hfm⟩
    · rw [hfm]; exact hk
    · rw [hfm]; exact (mem_setAdd _ _ _).mpr (Or.inl hk)
  · rw [hcat]; exact hstores
  · rw [hcat]; exact (setitem_obsolete _ _ _ hset).1

theorem setitem_step_facts (st : UpdateSt) (m : Message) (cat' : Catalog)
    (ht : m.id.truthy = true) (hset : st.cat.setitem m = .ok cat') :
    (∀ k, (alookup k st.cat.messages).isSome →
      (alookup k cat'.messages).isSome) ∧
    (alookup (keyFor m.id m.context) cat'.messages).isSome ∧
    cat'.obsolete = st.cat.obsolete :=
  ⟨fun k hk => setitem_ok_mono _ _ _ hset k hk,
    setitem_stores _ _ _ hset (pyTruthy_ne_empty _ ht),
    (setitem_obsolete _ _ _ hset).1⟩

theorem updateLoop_invariants (np : Nat) (snap : List (PyVal × Message))
    (nf keep : Bool) (cands : List (String × Option String)) :
    ∀ (ms : List Message) (st st' : UpdateSt),
      updateLoop np snap nf keep cands ms st = .ok st' →
      (∀ k, (alookup k st.cat.messages).isSome →
        (alookup k st'.cat.messages).isSome) ∧
      (∀ k, (alookup k st.remaining).isSome →
        (alookup k st'.remaining).isSome ∨
          (alookup k st'.cat.messages).isSome) ∧
      (∀ k, k ∈ st.fuzzyMatches → k ∈ st'.fuzzyMatches) ∧
      (∀ m ∈ ms, m.id.truthy = true →
        (alookup (keyFor m.id m.context) st'.cat.messages).isSome) ∧
      st'.cat.obsolete = st.cat.obsolete := by
  intro ms
  induction ms with
  | nil =>
    intro st st' h
    simp only [updateLoop] at h
    injection h with h2
    subst h2
    exact ⟨fun _ hk => hk, fun _ hk => Or.inl hk, fun _ hk => hk,
      by simp, rfl⟩
  | cons m ms ih =>
    intro st st' h
    simp only [updateLoop] at h
    by_cases htr : m.id.truthy = true
    · rw [if_pos htr] at h
      split at h
      · exact absurd h (by simp)
      · rename_i st₁ heq
        obtain ⟨ihA, ihB, ihC, ihD, ihE⟩ := ih st₁ st' h
        have step :
            (∀ k, (alookup k st.cat.messages).isSome →
              (alookup k st₁.cat.messages).isSome) ∧
            (∀ k, (alookup k st.remaining).isSome →
              (alookup k st₁.remaining).isSome ∨
                (alookup k st₁.cat.messages).isSome) ∧
            (∀ k, k ∈ st.fuzzyMatches → k ∈ st₁.fuzzyMatches) ∧
            (alookup (keyFor m.id m.context) st₁.cat.messages).isSome ∧
            st₁.cat.obsolete = st.cat.obsolete := by
          by_cases hsnap : (alookup (keyFor m.id m.context) snap).isSome
          · rw [if_pos hsnap] at heq
            exact mergeStep_step_facts _ _ _ _ _ _ _ _ htr heq
          · rw [if_neg hsnap] at heq
            by_cases hnf : nf = true
            · rw [if_neg (by simp [hnf])] at heq
              rcases hset : st.cat.setitem m with e | cat' <;>
                rw [hset] at heq <;> simp only [Except.map] at heq
              · exact absurd heq (by simp)
              · injection heq with h3
                subst h3
                obtain ⟨sA, sB, sC⟩ := setitem_step_facts _ _ _ htr hset
                exact ⟨fun k hk => sA k hk, fun k hk => Or.inl hk,
                  fun _ hk => hk, sB, sC⟩
            · rw [if_pos (by simp [hnf])] at heq
              rcases hgcm : getCloseMatches1
                  (pyNormalize (match keyFor m.id m.context with
                    | .tup l => l.headD ""
                    | .str s => s)) (cands.map Prod.fst) with _ | mk <;>
                rw [hgcm] at heq
              · rcases hset : st.cat.setitem m with e | cat' <;>
                  rw [hset] at heq <;> simp only [Except.map] at heq
                · exact absurd heq (by simp)
                · injection heq with h3
                  subst h3
                  obtain ⟨sA, sB, sC⟩ := setitem_step_facts _ _ _ htr hset
                  exact ⟨fun k hk => sA k hk, fun k hk => Or.inl hk,
                    fun _ hk => hk, sB, sC⟩
              · exact mergeStep_step_facts _ _ _ _ _ _ _ _ htr heq
        obtain ⟨sA, sB, sC, sD, sE⟩ := step
        refine ⟨fun k hk => ihA k (sA k hk), ?_, fun k hk => ihC k (sC k hk),
          ?_, ihE.trans sE⟩
        · intro k hk
          rcases sB k hk with h1 | h1
          · exact ihB k h1
          · exact Or.inr (ihA k h1)
        · intro m' hm' htr'
          rcases List.mem_cons.mp hm' with rfl | hmem
          · exact ihA _ sD
          · exact ihD m' hmem htr'
    · rw [if_neg htr] at h
      obtain ⟨ihA, ihB, ihC, ihD, ihE⟩ := ih st st' h
      refine ⟨ihA, ihB, ihC, ?_, ihE⟩
      intro m' hm' htr'
      rcases List.mem_cons.mp hm' with rfl | hmem
      · exact absurd htr' htr
      · exact ihD m' hmem htr'



theorem obsfold_mono (fm : List PyVal) (nf : Bool) :
    ∀ (rem ob : List (PyVal × Message)) (k : PyVal),
      (alookup k ob).isSome →
      (alookup k (rem.foldl (fun ob p =>
        if nf = true ∨ p.1 ∉ fm then
          dictInsert ob p.1 { p.2 with modified := true }
        else ob) ob)).isSome := by
  intro rem
  induction rem with
  | nil => intro ob k hk; exact hk
  | cons q rem ih =>
    intro ob k hk
    rw [List.foldl_cons]
    apply ih
    by_cases hc : nf = true ∨ q.1 ∉ fm
    · rw [if_pos hc]
      by_cases hkq : k = q.1
      · subst hkq
        rw [alookup_dictInsert_self]
        simp
      · rw [alookup_dictInsert_ne _ _ _ _ hkq]
        exact hk
    · rw [if_neg hc]
      exact hk

theorem obsfold_covers (fm : List PyVal) (nf : Bool) :
    ∀ (rem ob : List (PyVal × Message)) (k : PyVal),
      (alookup k rem).isSome → (nf = true ∨ k ∉ fm) →
      (alookup k (rem.foldl (fun ob p =>
        if nf = true ∨ p.1 ∉ fm then
          dictInsert ob p.1 { p.2 with modified := true }
        else ob) ob)).isSome := by
  intro rem
  induction rem with
  | nil =>
    intro ob k hk _
    simp [alookup] at hk
  | cons q rem ih =>
    intro ob k hk hc
    obtain ⟨a, v⟩ := q
    rw [List.foldl_cons]
    by_cases hak : a = k
    · subst hak
      rw [if_pos (by exact hc)]
      exact obsfold_mono fm nf rem _ a (by rw [alookup_dictInsert_self]; simp)
    · rw [alookup_cons, if_neg hak] at hk
      by_cases hcq : nf = true ∨ a ∉ fm
      · rw [if_pos hcq]
        exact ih _ k hk hc
      · rw [if_neg hcq]
        exact ih _ k hk hc

/-! ## C2 — classification of every key (amended) -/

/-- C2 (amended): when `update` (fuzzy matching on, default flags)
completes, every non-empty-id template key is a key of the rebuilt main
mapping, and every key that existed before the update is a key of the main
mapping, or a key of `obsolete`, or was claimed by a fuzzy merge (it is in
the pass's `fuzzy_matches` set); fuzzy-claimed keys are in neither of the
first two classifications, which is what the original claim missed. -/
theorem c2_update_classifies_all_keys (c t : Catalog) (st : UpdateSt)
    (hrun : c.updateFull t false false true = .ok st)
    (ht : ∀ p ∈ t.messages,
      keyFor p.2.id p.2.context = p.1 ∧ p.2.id.truthy = true) :
    (∀ p ∈ t.messages, (alookup p.1 st.cat.messages).isSome) ∧
    (∀ p ∈ c.messages, (alookup p.1 st.cat.messages).isSome ∨
      (alookup p.1 st.cat.obsolete).isSome ∨ p.1 ∈ st.fuzzyMatches) := by
  simp only [Catalog.updateFull] at hrun
  split at hrun
  · exact absurd hrun (by simp)
  · rename_i st₀ hloop
    injection hrun with h2
    subst h2
    obtain ⟨A, B, C, D, E⟩ := updateLoop_invariants _ _ _ _ _ _ _ _ hloop
    constructor
    · intro p hp
      have hm : p.2 ∈ t.iterMessages := by
        rw [Catalog.iterMessages]
        exact List.mem_cons_of_mem _ (List.mem_map.mpr ⟨p, hp, rfl⟩)
      have hd := D p.2 hm (ht p hp).2
      rw [(ht p hp).1] at hd
      exact hd
    · intro p hp
      have hsome : (alookup p.1 c.messages).isSome :=
        alookup_isSome_of_mem _ _ hp
      rcases B p.1 hsome with h1 | h1
      · by_cases hfm : p.1 ∈ st₀.fuzzyMatches
        · exact Or.inr (Or.inr hfm)
        · refine Or.inr (Or.inl ?_)
          exact obsfold_covers st₀.fuzzyMatches false _ _ _ h1 (Or.inr hfm)
      · exact Or.inl h1




theorem mem_clone_flags (x : String) (hx : x ≠ "python-format") (m : Message) :
    x ∈ m.clone.flags ↔ x ∈ m.flags :=
  mem_mkMessage_flags x hx m.id m.string m.locations m.flags m.auto_comments
    m.user_comments m.previous_id m.context m.modified

theorem mergeStep_exact_preserves (np : Nat) (snap : List (PyVal × Message))
    (st : UpdateSt) (m old : Message)
    (ht : m.id.truthy = true)
    (hrem : alookup (keyFor m.id m.context) st.remaining = some old)
    (hfresh : alookup (keyFor m.id m.context) st.cat.messages = none)
    (hshape : shapeCompat m.id old.string np)
    (hfm : "fuzzy" ∉ m.flags) (hfo : "fuzzy" ∉ old.flags) :
    ∃ m', mergeStep np snap true st m (keyFor m.id m.context)
        (keyFor m.id m.context) false =
      .ok ⟨{ st.cat with
             messages := dictInsert st.cat.messages (keyFor m.id m.context) m' },
        dictRemove st.remaining (keyFor m.id m.context), st.fuzzyMatches⟩ ∧
      m'.string = old.string ∧ m'.isFuzzy = false := by
  obtain ⟨mid, mstr, mlocs, mfl, mac, muc, mpi, mctx, mmod⟩ := m
  obtain ⟨oid, ostr, olocs, ofl, oac, ouc, opi, octx, omod⟩ := old
  simp only [] at ht hrem hfresh hshape hfm hfo
  rcases mid with s | l <;> rcases ostr with s2 | l2
  -- scalar id, scalar inherited string
  · have hs : s ≠ "" := by simpa [PyVal.truthy] using ht
    unfold mergeStep reconcileArity mergeFinalize Catalog.setitem
    simp only [eq_self_iff_true, if_true, hrem, clone_id, clone_context,
      hfresh, PyVal.str.injEq, hs, PyVal.isTup, Bool.false_eq_true, false_and,
      if_false, reduceCtorEq]
    refine ⟨_, rfl, rfl, ?_⟩
    simp only [Message.isFuzzy, mem_setUnion, mem_clone_flags "fuzzy"
      (by decide), decide_eq_true_eq]
    simp [hfm, hfo]
  · simp only [shapeCompat] at hshape
  · simp only [shapeCompat] at hshape
  -- plural id, tuple inherited string of the expected length
  · simp only [shapeCompat] at hshape
    unfold mergeStep reconcileArity mergeFinalize Catalog.setitem
    simp only [eq_self_iff_true, if_true, hrem, clone_id, clone_context,
      hfresh, hshape, ne_eq, not_true_eq_false, Bool.false_eq_true, if_false,
      PyVal.isTup, Bool.not_true, and_false, reduceCtorEq]
    refine ⟨_, rfl, rfl, ?_⟩
    simp only [Message.isFuzzy, mem_setUnion, mem_clone_flags "fuzzy"
      (by decide), decide_eq_true_eq]
    simp [hfm, hfo]



theorem updateLoop_exact_all (np : Nat) (snap : List (PyVal × Message))
    (cands : List (String × Option String)) :
    ∀ (ms : List Message) (st : UpdateSt),
      (∀ m ∈ ms, m.id.truthy = true ∧
        ∃ old, alookup (keyFor m.id m.context) snap = some old ∧
          alookup (keyFor m.id m.context) st.remaining = some old ∧
          alookup (keyFor m.id m.context) st.cat.messages = none ∧
          shapeCompat m.id old.string np ∧
          "fuzzy" ∉ old.flags ∧ "fuzzy" ∉ m.flags) →
      (ms.map (fun m => keyFor m.id m.context)).Nodup →
      ∃ st', updateLoop np snap false true cands ms st = .ok st' ∧
        (∀ m ∈ ms, ∃ old m',
          alookup (keyFor m.id m.context) snap = some old ∧
          alookup (keyFor m.id m.context) st'.cat.messages = some m' ∧
          m'.string = old.string ∧ m'.isFuzzy = false) ∧
        (∀ k, k ∉ ms.map (fun m => keyFor m.id m.context) →
          alookup k st'.cat.messages = alookup k st.cat.messages ∧
          alookup k st'.remaining = alookup k st.remaining) := by
  intro ms
  induction ms with
  | nil =>
    intro st _ _
    refine ⟨st, by simp [updateLoop], by simp, fun k _ => ⟨rfl, rfl⟩⟩
  | cons m ms ih =>
    intro st hyp hnd
    obtain ⟨htr, old, hsnap, hrem, hfresh, hshape, hfo, hfm⟩ :=
      hyp m (List.mem_cons_self _ _)
    obtain ⟨m', hmerge, hstr, hfz⟩ :=
      mergeStep_exact_preserves np snap st m old htr hrem hfresh hshape hfm hfo
    rw [List.map_cons, List.nodup_cons] at hnd
    obtain ⟨hknotin, hnd'⟩ := hnd
    have hyp' : ∀ m₂ ∈ ms, m₂.id.truthy = true ∧
        ∃ old₂, alookup (keyFor m₂.id m₂.context) snap = some old₂ ∧
          alookup (keyFor m₂.id m₂.context)
            (dictRemove st.remaining (keyFor m.id m.context)) = some old₂ ∧
          alookup (keyFor m₂.id m₂.context)
            (dictInsert st.cat.messages (keyFor m.id m.context) m') = none ∧
          shapeCompat m₂.id old₂.string np ∧
          "fuzzy" ∉ old₂.flags ∧ "fuzzy" ∉ m₂.flags := by
      intro m₂ hm₂
      obtain ⟨htr₂, old₂, hsnap₂, hrem₂, hfresh₂, hshape₂, hfo₂, hfm₂⟩ :=
        hyp m₂ (List.mem_cons_of_mem _ hm₂)
      have hne : keyFor m₂.id m₂.context ≠ keyFor m.id m.context := by
        intro he
        exact hknotin (he ▸ List.mem_map.mpr ⟨m₂, hm₂, rfl⟩)
      refine ⟨htr₂, old₂, hsnap₂, ?_, ?_, hshape₂, hfo₂, hfm₂⟩
      · rw [alookup_dictRemove_ne _ _ _ hne]
        exact hrem₂
      · rw [alookup_dictInsert_ne _ _ _ _ hne]
        exact hfresh₂
    obtain ⟨st', hloop', hall', hpres'⟩ :=
      ih ⟨{ st.cat with
        messages := dictInsert st.cat.messages (keyFor m.id m.context) m' },
        dictRemove st.remaining (keyFor m.id m.context), st.fuzzyMatches⟩
        hyp' hnd'
    refine ⟨st', ?_, ?_, ?_⟩
    · simp only [updateLoop, htr, if_true]
      rw [if_pos (by rw [hsnap]; rfl), hmerge]
      exact hloop'
    · intro m₂ hm₂
      rcases List.mem_cons.mp hm₂ with rfl | hmem
      · refine ⟨old, m', hsnap, ?_, hstr, hfz⟩
        have hkey : keyFor m₂.id m₂.context ∉
            ms.map (fun m => keyFor m.id m.context) := hknotin
        rw [(hpres' _ hkey).1]
        exact alookup_dictInsert_self _ _ _
      · exact hall' m₂ hmem
    · intro k hk
      rw [List.map_cons, List.mem_cons] at hk
      push_neg at hk
      obtain ⟨hk1, hk2⟩ := hk
      obtain ⟨hp1, hp2⟩ := hpres' k hk2
      constructor
      · rw [hp1]
        exact alookup_dictInsert_ne _ _ _ _ hk1
      · rw [hp2]
        exact alookup_dictRemove_ne _ _ _ hk1



/-- C2 (witness): concrete instance — a one-entry catalog updated with a
same-key template classifies every key. -/
theorem c2_witness :
    (∀ p ∈ blueTmpl.messages, (alookup p.1 blueSt.cat.messages).isSome) ∧
    (∀ p ∈ blueCat.messages, (alookup p.1 blueSt.cat.messages).isSome ∨
      (alookup p.1 blueSt.cat.obsolete).isSome ∨ p.1 ∈ blueSt.fuzzyMatches) :=
  c2_update_classifies_all_keys blueCat blueTmpl blueSt rfl (by decide)

/-! ## C1 — update preserves existing translations (amended) -/

/-- C1 (amended): for a template whose entries are consistently keyed with
distinct keys, each of whose keys already exists in the catalog with a
non-empty translated string of matching shape (scalar for a scalar id, a
tuple of exactly the catalog's plural count of forms for a plural id), an
update with default flags succeeds and stores, for each template key, a
message with the identical translated string; and no fuzzy flag is forced:
with neither the old entry nor the template message flagged fuzzy, the
merged entry is not fuzzy. -/
theorem c1_update_preserves_translations (c t : Catalog)
    (ht : ∀ p ∈ t.messages,
      keyFor p.2.id p.2.context = p.1 ∧ p.2.id.truthy = true)
    (hnd : (t.messages.map Prod.fst).Nodup)
    (hcov : ∀ p ∈ t.messages, ∃ old, alookup p.1 c.messages = some old ∧
      old.string.truthy = true ∧ shapeCompat p.2.id old.string c.numPlurals ∧
      "fuzzy" ∉ old.flags ∧ "fuzzy" ∉ p.2.flags) :
    ∃ c', c.update t false false true = .ok c' ∧
      ∀ p ∈ t.messages, ∃ old m', alookup p.1 c.messages = some old ∧
        alookup p.1 c'.messages = some m' ∧
        m'.string = old.string ∧ m'.isFuzzy = false := by
  have hyp : ∀ m ∈ t.messages.map Prod.snd, m.id.truthy = true ∧
      ∃ old, alookup (keyFor m.id m.context) c.messages = some old ∧
        alookup (keyFor m.id m.context)
          ((⟨{ c with messages := [], new := [], orphans := [] },
            c.messages, []⟩ : UpdateSt)).remaining = some old ∧
        alookup (keyFor m.id m.context)
          ((⟨{ c with messages := [], new := [], orphans := [] },
            c.messages, []⟩ : UpdateSt)).cat.messages = none ∧
        shapeCompat m.id old.string c.numPlurals ∧
        "fuzzy" ∉ old.flags ∧ "fuzzy" ∉ m.flags := by
    intro m hm
    obtain ⟨p, hp, rfl⟩ := List.mem_map.mp hm
    obtain ⟨hkey, htr⟩ := ht p hp
    obtain ⟨old, hlook, _, hshape, hfo, hfm⟩ := hcov p hp
    rw [hkey]
    exact ⟨htr, old, hlook, hlook, rfl, hshape, hfo, hfm⟩
  have hnd2 : ((t.messages.map Prod.snd).map
      (fun m => keyFor m.id m.context)).Nodup := by
    rw [List.map_map]
    have heq : t.messages.map ((fun m => keyFor m.id m.context) ∘ Prod.snd) =
        t.messages.map Prod.fst :=
      List.map_congr_left (fun p hp => (ht p hp).1)
    rw [heq]
    exact hnd
  obtain ⟨st', hloop, hall, _⟩ :=
    updateLoop_exact_all c.numPlurals c.messages
      (if ¬ false then buildFuzzyCandidates c.messages else [])
      (t.messages.map Prod.snd)
      ⟨{ c with messages := [], new := [], orphans := [] }, c.messages, []⟩
      hyp hnd2
  have hfull : c.updateFull t false false true =
      .ok ⟨{ st'.cat with
             obsolete := st'.remaining.foldl
               (fun ob p =>
                 if (false : Bool) = true ∨ p.1 ∉ st'.fuzzyMatches then
                   dictInsert ob p.1 { p.2 with modified := true }
                 else ob) st'.cat.obsolete },
        st'.remaining, st'.fuzzyMatches⟩ := by
    unfold Catalog.updateFull
    simp only [Catalog.iterMessages, updateLoop]
    rw [if_neg (show ¬ ((Catalog.headerMessage t).id.truthy = true) by
      simp [Catalog.headerMessage, PyVal.truthy])]
    rw [hloop]
  refine ⟨_, by unfold Catalog.update; rw [hfull]; rfl, ?_⟩
  intro p hp
  have hm : p.2 ∈ t.messages.map Prod.snd := List.mem_map.mpr ⟨p, hp, rfl⟩
  obtain ⟨old, m', hsnap, hmem, hstr, hfz⟩ := hall p.2 hm
  rw [(ht p hp).1] at hsnap hmem
  exact ⟨old, m', hsnap, hmem, hstr, hfz⟩

/-- C1 (witness): concrete instance — catalog `"blue" → "blau"` updated
with a template holding `"blue"` keeps the translation un-fuzzied. -/
theorem c1_witness :
    ∃ c', blueCat.update blueTmpl false false true = .ok c' ∧
      ∀ p ∈ blueTmpl.messages, ∃ old m',
        alookup p.1 blueCat.messages = some old ∧
        alookup p.1 c'.messages = some m' ∧
        m'.string = old.string ∧ m'.isFuzzy = false :=
  c1_update_preserves_translations blueCat blueTmpl (by decide) (by decide)
    (by
      intro p hp
      have hp2 : p = (.str "blue", msgOf (.str "blue") (.str "")) := by
        simpa [blueTmpl, catOf] using hp
      subst hp2
      exact ⟨msgOf (.str "blue") (.str "blau"), rfl, rfl, trivial, by decide,
        by decide⟩)


end Poboy
